import Mathlib

/-!
Verification of the ingest core of the sensor-node-2.0 daemon.

The definitions below are a shallow embedding of the Python sources:

* `decompress` and its helpers embed `sn2daemon/sensor_stream.py`,
  function `decompress` (the delta+bitmap stream codec);
* `Timeline` embeds `sn2daemon/timeline.py`;
* `BufState` with `Buffer.align` / `Buffer.submit` / `Buffer.emit` /
  `Buffer.bufferSamples` / `Buffer.emitExisting` embeds
  `sn2daemon/sensor_stream.py`, class `Buffer`;
* `StatusMessage.from_buf` embeds `sn2daemon/protocol.py`,
  class `StatusMessage`;
* `NoiseMessage` and `SensorStreamMessage` embed the corresponding
  classes of `sn2daemon/protocol.py`;
* `IngState` with `Ingestor.onMessage` embeds the gating logic of
  `SensorNode2Daemon._on_message` in `sn2daemon/daemon.py`;
* `ControlProtocol.detectResult` embeds the tail of
  `ControlProtocol.detect` in `sn2daemon/control_protocol.py`.

Bytes are modelled as `ℕ` (wire bytes are `< 256`), machine integers as
`ℕ`/`ℤ` with explicit `% 2 ^ w` where the Python code wraps, `datetime`
and `timedelta` values as integer microseconds (`ℤ`), and fallible code
as `Option`/`Except`.
-/

/-! ## Byte-level primitives (struct.unpack "<..." little-endian) -/

/-- Interpret an unsigned 16-bit value as Python `struct.unpack("<h", ...)`
would: two's complement signed 16-bit. -/
def toSigned16 (u : ℕ) : ℤ :=
  if u < 2 ^ 15 then (u : ℤ) else (u : ℤ) - 2 ^ 16

/-- Interpret an unsigned byte as Python `struct.unpack("<b", ...)` would:
two's complement signed 8-bit. -/
def toSigned8 (u : ℕ) : ℤ :=
  if u < 2 ^ 7 then (u : ℤ) else (u : ℤ) - 2 ^ 8

/-- Read one byte (`B` in a struct format). -/
def readU8 : List ℕ → Option (ℕ × List ℕ)
  | [] => none
  | b :: rest => some (b, rest)

/-- Read a little-endian unsigned 16-bit integer (`H`). -/
def readU16LE : List ℕ → Option (ℕ × List ℕ)
  | b0 :: b1 :: rest => some (b0 + 256 * b1, rest)
  | _ => none

/-- Read a little-endian unsigned 32-bit integer (`L`). -/
def readU32LE : List ℕ → Option (ℕ × List ℕ)
  | b0 :: b1 :: b2 :: b3 :: rest =>
      some (b0 + 256 * b1 + 256 ^ 2 * b2 + 256 ^ 3 * b3, rest)
  | _ => none

/-- Read a little-endian unsigned 64-bit integer (`Q`). -/
def readU64LE : List ℕ → Option (ℕ × List ℕ)
  | b0 :: b1 :: b2 :: b3 :: b4 :: b5 :: b6 :: b7 :: rest =>
      some (b0 + 256 * b1 + 256 ^ 2 * b2 + 256 ^ 3 * b3 + 256 ^ 4 * b4 +
            256 ^ 5 * b5 + 256 ^ 6 * b6 + 256 ^ 7 * b7, rest)
  | _ => none

/-- Little-endian encoding of `x` on `n` bytes (`struct.pack` of an
unsigned fixed-width integer; the Python call raises for out-of-range
values, callers establish the range). -/
def encLE (n : ℕ) (x : ℕ) : List ℕ :=
  match n with
  | 0 => []
  | n + 1 => x % 256 :: encLE n (x / 256)

/-! ## The stream codec (`sensor_stream.decompress`)

`decompress(average, packet)` walks the packet twice.  The first phase
(`procBits` for the inner `for i in range(7, -1, -1)` loop, `readBitmap`
for the outer `while remaining_payload_size > 0` loop) consumes bitmap
bytes while budgeting one byte per 1-bit and two bytes per 0-bit; it
raises the codec `ValueError` the moment the budget goes negative.  The
second phase (`readResiduals`) consumes the budgeted residual bytes.
The Python function ends with `assert not packet`. -/

/-- Error outcomes of `decompress`.  `codecError` is the explicit
`ValueError("codec error: remaining payload is negative!")`; the other
three name Python failure modes that the theorems below prove
unreachable (`packet[0]` on an empty list, `struct.unpack` on a short
buffer, the final `assert not packet`). -/
inductive CodecErr where
  | codecError
  | indexError
  | structError
  | assertError
deriving Repr, DecidableEq

/-- Outcome of scanning the bits of one bitmap byte. -/
inductive BitScan where
  /-- all requested bits consumed, budget still positive -/
  | cont (bits : List Bool) (rem : ℤ)
  /-- inner `break`: the budget reached exactly zero -/
  | stop (bits : List Bool)
  /-- the budget went negative: codec error -/
  | fail
deriving Repr, DecidableEq

/-- The inner loop of `decompress`: scan bits `i-1, …, 0` of byte `b`
(Python iterates `i = 7 … 0`, so the entry point is `i = 8`), appending
each bit to `bits` and deducting its residual cost from `rem`. -/
def procBits : ℕ → ℕ → List Bool → ℤ → BitScan
  | 0, _, bits, rem => .cont bits rem
  | i + 1, b, bits, rem =>
    let bit := (b >>> i) % 2 == 1
    let rem' := rem - (if bit then 1 else 2)
    let bits' := bits ++ [bit]
    if rem' ≤ 0 then (if rem' < 0 then .fail else .stop bits') else procBits i b bits' rem'

/-- The outer `while remaining_payload_size > 0` loop of `decompress`:
take one bitmap byte off the packet, scan its bits, stop when the
budget is exhausted. Returns the bitmap and the residual bytes. -/
def readBitmap : List ℕ → ℤ → List Bool → Except CodecErr (List Bool × List ℕ)
  | packet, rem, bits =>
    if rem ≤ 0 then .ok (bits, packet)
    else
      match packet with
      | [] => .error .indexError
      | b :: rest =>
        match procBits 8 b bits (rem - 1) with
        | .fail => .error .codecError
        | .stop bits' => .ok (bits', rest)
        | .cont bits' rem' => readBitmap rest rem' bits'

/-- The second loop of `decompress`: for each bitmap bit read a signed
8-bit (bit set) or little-endian signed 16-bit (bit clear) residual and
add it to the reference value. -/
def readResiduals (average : ℤ) : List Bool → List ℕ → Except CodecErr (List ℤ × List ℕ)
  | [], packet => .ok ([], packet)
  | true :: bits, packet =>
    match packet with
    | [] => .error .structError
    | b :: rest => do
        let (vs, rem) ← readResiduals average bits rest
        .ok ((toSigned8 b + average) :: vs, rem)
  | false :: bits, packet =>
    match packet with
    | b0 :: b1 :: rest => do
        let (vs, rem) ← readResiduals average bits rest
        .ok ((toSigned16 (b0 + 256 * b1) + average) :: vs, rem)
    | _ => .error .structError

/-- `sensor_stream.decompress`. -/
def decompress (average : ℤ) (packet : List ℕ) : Except CodecErr (List ℤ) := do
  let (bits, rest) ← readBitmap packet packet.length []
  let (vals, rest2) ← readResiduals average bits rest
  if rest2.isEmpty then .ok (average :: vals) else .error .assertError

/-- Residual budget of a bitmap: one byte per set bit, two per clear bit. -/
def bitCost (bits : List Bool) : ℤ :=
  (bits.map (fun b => if b then (1 : ℤ) else 2)).sum

theorem bitCost_nonneg (bits : List Bool) : 0 ≤ bitCost bits := by
  induction bits with
  | nil => simp [bitCost]
  | cons b bs ih =>
    simp only [bitCost, List.map_cons, List.sum_cons] at *
    split <;> omega

theorem bitCost_append (a b : List Bool) :
    bitCost (a ++ b) = bitCost a + bitCost b := by
  simp [bitCost]

theorem bitCost_cons (b : Bool) (bs : List Bool) :
    bitCost (b :: bs) = (if b then (1 : ℤ) else 2) + bitCost bs := by
  simp [bitCost]

/-- Budget accounting for the inner bit loop: the appended bits and the
budget consumed balance, a `stop` means the budget landed exactly on
zero, and a `cont` from a positive budget keeps the budget strictly
positive. -/
theorem procBits_spec (i : ℕ) (b : ℕ) (bits : List Bool) (rem : ℤ) :
    (procBits i b bits rem = .fail) ∨
    (∃ bits', procBits i b bits rem = .stop bits' ∧
      bitCost bits' = bitCost bits + rem ∧ bitCost bits ≤ bitCost bits') ∨
    (∃ bits' rem', procBits i b bits rem = .cont bits' rem' ∧
      bitCost bits' + rem' = bitCost bits + rem ∧ bitCost bits ≤ bitCost bits' ∧
      ((0 < rem ∨ 1 ≤ i) → 0 < rem')) := by
  induction i generalizing bits rem with
  | zero =>
    right; right
    refine ⟨bits, rem, rfl, by ring, le_refl _, ?_⟩
    rintro (h | h)
    · exact h
    · omega
  | succ i ih =>
    have hunfold : procBits (i + 1) b bits rem =
        (if rem - (if ((b >>> i) % 2 == 1) then (1 : ℤ) else 2) ≤ 0 then
          (if rem - (if ((b >>> i) % 2 == 1) then (1 : ℤ) else 2) < 0 then .fail
           else .stop (bits ++ [(b >>> i) % 2 == 1]))
         else procBits i b (bits ++ [(b >>> i) % 2 == 1])
           (rem - (if ((b >>> i) % 2 == 1) then (1 : ℤ) else 2))) := rfl
    rw [hunfold]
    set bt := ((b >>> i) % 2 == 1) with hbt
    set c := (if bt then (1 : ℤ) else 2) with hc_def
    have hc12 : c = 1 ∨ c = 2 := by rw [hc_def]; split <;> simp
    have hstep : bitCost (bits ++ [bt]) = bitCost bits + c := by
      rw [bitCost_append, bitCost_cons, hc_def]
      simp only [bitCost, List.map_nil, List.sum_nil]
      ring
    by_cases h1 : rem - c ≤ 0
    · by_cases h2 : rem - c < 0
      · left; simp [h1, h2]
      · right; left
        exact ⟨bits ++ [bt], by simp [h1, h2], by omega, by omega⟩
    · rcases ih (bits ++ [bt]) (rem - c) with
        h | ⟨bits', h, hc, hm⟩ | ⟨bits', rem', h, hc, hm, hp⟩
      · left; simp [h1, h]
      · right; left
        exact ⟨bits', by simp [h1, h], by omega, by omega⟩
      · right; right
        refine ⟨bits', rem', by simp [h1, h], by omega, by omega, ?_⟩
        intro
        exact hp (Or.inl (by omega))

/-- Budget accounting for the bitmap loop under the invariant that the
budget never exceeds the bytes actually present: either the codec error
is raised, or the loop terminates with its budget exactly consumed, so
the final bitmap costs exactly the residual bytes left over. -/
theorem readBitmap_spec (packet : List ℕ) (rem : ℤ) (bits : List Bool)
    (h0 : 0 ≤ rem) (hlen : rem ≤ packet.length) :
    (readBitmap packet rem bits = .error .codecError) ∨
    (∃ bitsF rest, readBitmap packet rem bits = .ok (bitsF, rest) ∧
      (rest.length : ℤ) ≤ packet.length ∧
      bitCost bitsF = bitCost bits + rem - ((packet.length : ℤ) - rest.length)) := by
  induction packet generalizing rem bits with
  | nil =>
    right
    have hz : rem ≤ 0 := by simpa using hlen
    refine ⟨bits, [], ?_, by simp, by simp; omega⟩
    unfold readBitmap
    simp [hz]
  | cons b rest ih =>
    by_cases hpos : rem ≤ 0
    · right
      refine ⟨bits, b :: rest, ?_, le_refl _, by simp; omega⟩
      unfold readBitmap
      simp [hpos]
    · have hunfold : readBitmap (b :: rest) rem bits =
          (match procBits 8 b bits (rem - 1) with
           | .fail => .error .codecError
           | .stop bits' => .ok (bits', rest)
           | .cont bits' rem' => readBitmap rest rem' bits') := by
        rw [readBitmap.eq_def]
        simp only [if_neg hpos]
      rw [hunfold]
      rcases procBits_spec 8 b bits (rem - 1) with h | ⟨bits', h, hc, hm⟩ |
          ⟨bits', rem', h, hc, hm, hp⟩
      · left; rw [h]
      · right
        refine ⟨bits', rest, by rw [h], ?_, ?_⟩
        · simp
        · simp only [List.length_cons]
          push_cast
          omega
      · have hp' : 0 < rem' := hp (Or.inr (by omega))
        have hlen' : rem' ≤ (rest.length : ℤ) := by
          simp only [List.length_cons] at hlen
          push_cast at hlen ⊢
          omega
        rcases ih rem' bits' (by omega) hlen' with h2 | ⟨bitsF, restF, h2, hl2, hc2⟩
        · left; rw [h]; exact h2
        · right
          refine ⟨bitsF, restF, by rw [h]; exact h2, ?_, ?_⟩
          · simp only [List.length_cons]; push_cast; omega
          · simp only [List.length_cons] at *
            push_cast at *
            omega

/-- The residual loop succeeds whenever the packet holds at least the
budgeted bytes, producing one value per bitmap bit and consuming
exactly the budget. -/
theorem readResiduals_spec (average : ℤ) (bits : List Bool) (packet : List ℕ)
    (h : bitCost bits ≤ packet.length) :
    ∃ vals rest, readResiduals average bits packet = .ok (vals, rest) ∧
      vals.length = bits.length ∧
      (rest.length : ℤ) = packet.length - bitCost bits := by
  induction bits generalizing packet with
  | nil =>
    exact ⟨[], packet, rfl, rfl, by simp [bitCost]⟩
  | cons bit bits ih =>
    have hb := bitCost_nonneg bits
    rw [bitCost_cons] at h
    cases bit with
    | true =>
      match packet with
      | [] => simp at h; omega
      | b :: rest =>
        simp only [List.length_cons] at h
        obtain ⟨vals, rem, hok, hlen, hrest⟩ := ih rest (by push_cast at h ⊢; omega)
        refine ⟨(toSigned8 b + average) :: vals, rem, ?_, by simp [hlen], ?_⟩
        · simp only [readResiduals, hok]; rfl
        · rw [bitCost_cons]
          simp only [List.length_cons]
          push_cast
          omega
    | false =>
      match packet with
      | [] => simp at h; omega
      | [b] => simp at h; omega
      | b0 :: b1 :: rest =>
        simp only [List.length_cons] at h
        obtain ⟨vals, rem, hok, hlen, hrest⟩ := ih rest (by push_cast at h ⊢; omega)
        refine ⟨(toSigned16 (b0 + 256 * b1) + average) :: vals, rem, ?_, by simp [hlen], ?_⟩
        · simp only [readResiduals, hok]; rfl
        · rw [bitCost_cons]
          simp only [List.length_cons]
          push_cast
          omega

/-- Claim C1: for every reference value and payload, `decompress` either
raises the codec error or succeeds; on success every payload byte is
consumed (the residual phase ends with an empty leftover, so the final
`assert not packet` holds), the first output element is the reference
value, and the output length is `1 +` the number of collected bitmap
bits.  In particular the index, struct and assertion failure modes are
unreachable: an under- or overrun of the bitmap/residual accounting
always surfaces as the codec error, never as a silent truncation. -/
theorem c1_stream_codec_total (average : ℤ) (packet : List ℕ) :
    (decompress average packet = .error .codecError) ∨
    (∃ bits rest vals,
      readBitmap packet packet.length [] = .ok (bits, rest) ∧
      readResiduals average bits rest = .ok (vals, []) ∧
      decompress average packet = .ok (average :: vals) ∧
      (average :: vals).headI = average ∧
      (average :: vals).length = 1 + bits.length) := by
  rcases readBitmap_spec packet packet.length [] (by positivity) (le_refl _) with
    h | ⟨bits, rest, h, hl, hc⟩
  · left
    simp only [decompress, h]
    rfl
  · right
    have hc' : bitCost bits = rest.length := by
      rw [show bitCost ([] : List Bool) = 0 from rfl] at hc
      omega
    obtain ⟨vals, rest2, hok, hlen, hrest2⟩ := readResiduals_spec average bits rest
      (by omega)
    have hr2 : rest2 = [] := by
      have : (rest2.length : ℤ) = 0 := by omega
      simpa using this
    subst hr2
    refine ⟨bits, rest, vals, h, hok, ?_, rfl, by simp [hlen]; omega⟩
    have hstep : decompress average packet =
        (do
          let (vals2, rest2) ← readResiduals average bits rest
          if rest2.isEmpty then Except.ok (average :: vals2)
          else .error .assertError) := by
      simp only [decompress, h]
      rfl
    rw [hstep, hok]
    rfl

/-! ## Timeline (`sn2daemon/timeline.py`)

`remote_tip` and `local_tip` are Python ints; `%` below is Lean's `Int`
`%` (`Int.emod`), which agrees with Python `%` for the positive modulus
used here. -/

structure Timeline where
  remote_tip : ℤ
  local_tip : ℤ
  wraparound_at : ℤ
  slack : ℤ
deriving Repr, DecidableEq

/-- `Timeline.wraparound_aware_minus`. -/
def Timeline.wraparound_aware_minus (tl : Timeline) (v1 v2 : ℤ) : ℤ :=
  let naive_diff_forward := (v1 - v2) % tl.wraparound_at
  let naive_diff_backward := (v2 - v1) % tl.wraparound_at
  if naive_diff_backward < tl.slack then -naive_diff_backward
  else naive_diff_forward

/-- `Timeline.reset`. -/
def Timeline.reset (tl : Timeline) (timestamp : ℤ) : Timeline :=
  { tl with remote_tip := timestamp, local_tip := 0 }

/-- `Timeline.feed_and_transform`: returns the updated timeline and the
transformed timestamp. -/
def Timeline.feed_and_transform (tl : Timeline) (timestamp : ℤ) : Timeline × ℤ :=
  let change := tl.wraparound_aware_minus timestamp tl.remote_tip
  if -tl.slack < change ∧ change ≤ 0 then
    (tl, tl.local_tip + change)
  else
    ({ tl with remote_tip := timestamp, local_tip := tl.local_tip + change },
     tl.local_tip + change)

/-- `Timeline.forward`. -/
def Timeline.forward (tl : Timeline) (offset : ℤ) : Timeline :=
  { tl with
    local_tip := tl.local_tip + offset,
    remote_tip := (tl.remote_tip + offset) % tl.wraparound_at }

/-! ## StreamBuffer (`sn2daemon/sensor_stream.py`, class `Buffer`)

State and operations.  `datetime` / `timedelta` values are integer
microseconds.  The persistent `current` file is a byte list; the
on-disk sample type is `"h"` (signed 16-bit little-endian), as the
daemon instantiates its stream buffers.  `on_emit` calls are collected
in the returned emission list instead of invoking a callback. -/

/-- One `on_emit` invocation: `Buffer._emit` passes the three positional
arguments `(t0, period, samples)` (timestamp of the first sample, the
sample period, the sample values). -/
structure Emission where
  t0 : ℤ
  period : ℤ
  samples : List ℤ
deriving Repr, DecidableEq

/-- Python `timedelta / int` truncates the exact quotient to microsecond
resolution, rounding half to even; `n` is positive for callers. -/
def divRoundHalfEven (a n : ℤ) : ℤ :=
  let q := a / n
  let r := a % n
  if 2 * r < n then q
  else if n < 2 * r then q + 1
  else if q % 2 = 0 then q else q + 1

/-- In-memory state of `sensor_stream.Buffer`.  Fields that Python
initialises to `None` are `Option`s.  `file` is the content of the
`current` file (`none` when absent). -/
structure BufState where
  tl : Timeline
  batch_size : ℕ
  batch_seq_abs0 : Option ℤ
  batch_data : Option (List ℤ)
  period : Option ℤ
  alignment_t0 : Option ℤ
  alignment_data : List (ℤ × ℤ)
  file : Option (List ℕ)
deriving Repr, DecidableEq

/-- `Buffer.__init__` before `_emit_existing`: fresh timeline with
wraparound `2^16` and slack `2^15`, everything else unset. -/
def mkBuffer (batch_size : ℕ) : BufState :=
  { tl := ⟨0, 0, 2 ^ 16, 2 ^ 15⟩
    batch_size := batch_size
    batch_seq_abs0 := none
    batch_data := none
    period := none
    alignment_t0 := none
    alignment_data := []
    file := none }

/-- Encode one sample as `struct.pack("<h", s)` (the Python call raises
for values outside the signed 16-bit range; theorems about the file
carry that range hypothesis). -/
def encSample (s : ℤ) : List ℕ :=
  encLE 2 (s % 2 ^ 16).toNat

/-- Encode a sample run as the concatenation of `"<h"` records. -/
def encSamples (samples : List ℤ) : List ℕ :=
  samples.flatMap encSample

/-- Seconds of the Unix epoch covered by `datetime` (year 1 through
year 9999); `datetime.utcfromtimestamp` raises outside this range. -/
def minDatetimeS : ℤ := -62135596800
def maxDatetimeS : ℤ := 253402300799

/-- `utils.dt_to_ts`: seconds since the epoch of a microsecond instant,
truncating the microsecond component (`calendar.timegm(dt.utctimetuple())`). -/
def dt_to_ts (t : ℤ) : ℤ := t / 1000000

/-- `Buffer._make_header`: `struct.pack("<BQLQc", 0, t0_s, t0_us,
period_us, b"h")`, 22 bytes.  `round(period.total_seconds() * 1e6)`
recovers the timedelta's exact microsecond count for the microsecond-
integral periods used here, so it is embedded as the identity. -/
def headerBytes (t0 period : ℤ) : List ℕ :=
  encLE 1 0x00 ++ encLE 8 (dt_to_ts t0).toNat ++ encLE 4 (t0 % 1000000).toNat ++
  encLE 8 period.toNat ++ encLE 1 (Char.toNat 'h')

/-- `Buffer._get_batch_t0`: `alignment_t0 + period * batch_seq_abs0`.
The `getD` defaults stand for fields that are `None` only in states
where the Python expression would raise `TypeError`. -/
def Buffer.getBatchT0 (st : BufState) : ℤ :=
  st.alignment_t0.getD 0 + st.period.getD 0 * st.batch_seq_abs0.getD 0

/-- `Buffer._make_header` applied to the current state. -/
def Buffer.makeHeader (st : BufState) : List ℕ :=
  headerBytes (Buffer.getBatchT0 st) (st.period.getD 0)

/-- `Buffer._emit`: no call when there is no pending batch data,
otherwise one `on_emit` call with `(t0, period, samples)`, advance
`batch_seq_abs0`, truncate the in-memory batch and unlink the file. -/
def Buffer.emit (st : BufState) : BufState × List Emission :=
  match st.batch_data with
  | none => (st, [])
  | some [] => (st, [])
  | some data =>
    ({ st with
        batch_seq_abs0 := some (st.batch_seq_abs0.getD 0 + data.length)
        batch_data := some []
        file := none },
     [⟨Buffer.getBatchT0 st, st.period.getD 0, data⟩])

/-- `Buffer._buffer_samples`: rewrite the 22-byte header in place,
append the packed samples at the end of the file, advance the timeline
and extend the in-memory batch. -/
def Buffer.bufferSamples (st : BufState) (samples : List ℤ) : BufState :=
  let newFile :=
    match st.file with
    | none => Buffer.makeHeader st ++ encSamples samples
    | some old => Buffer.makeHeader st ++ old.drop 22 ++ encSamples samples
  { st with
      file := some newFile
      tl := st.tl.forward samples.length
      batch_data := some (st.batch_data.getD [] ++ samples) }

/-- The `while len(samples) + len(batch_data) >= batch_size` loop of
`Buffer.submit`.  The `batch_data.length < batch_size` conjunct of the
guard is the invariant of every reachable call (the loop re-establishes
it); without it the Python loop would misbehave on a negative slice
bound, and the recursion here would not terminate. -/
def Buffer.submitLoop (st : BufState) (samples : List ℤ) : BufState × List Emission :=
  if h : st.batch_size ≤ samples.length + (st.batch_data.getD []).length ∧
      (st.batch_data.getD []).length < st.batch_size then
    let to_submit := st.batch_size - (st.batch_data.getD []).length
    let st1 := Buffer.bufferSamples st (samples.take to_submit)
    let p2 := Buffer.emit st1
    let p3 := Buffer.submitLoop p2.1 (samples.drop to_submit)
    (p3.1, p2.2 ++ p3.2)
  else
    (if samples.isEmpty then st else Buffer.bufferSamples st samples, [])
termination_by samples.length
decreasing_by
  simp only [List.length_drop]
  omega

/-- `Buffer.submit`. -/
def Buffer.submit (st : BufState) (first_seq_rel : ℤ) (samples : List ℤ) :
    BufState × List Emission :=
  let fed := st.tl.feed_and_transform first_seq_rel
  let first_seq_abs := fed.2
  let st : BufState := { st with tl := fed.1 }
  let st : BufState :=
    if st.batch_seq_abs0.isNone then
      { st with batch_seq_abs0 := some first_seq_abs, batch_data := some [] }
    else st
  let disc : BufState × List Emission :=
    if first_seq_abs ≠ st.batch_seq_abs0.getD 0 + (st.batch_data.getD []).length then
      let p := Buffer.emit st
      ({ p.1 with batch_seq_abs0 := some first_seq_abs }, p.2)
    else (st, [])
  let p := Buffer.submitLoop disc.1 samples
  (p.1, disc.2 ++ p.2)

/-- `Buffer.align`. -/
def Buffer.align (st : BufState) (seq_rel rtc period : ℤ) :
    BufState × List Emission :=
  let pre : BufState × List Emission :=
    if st.period ≠ some period then
      let p := Buffer.emit st
      ({ p.1 with alignment_data := [], tl := p.1.tl.reset 0 }, p.2)
    else (st, [])
  let st : BufState := { pre.1 with period := some period }
  let fed := st.tl.feed_and_transform seq_rel
  let offset := fed.2
  let tl2 := fed.1.reset seq_rel
  let ad0 : List (ℤ × ℤ) :=
    if 2 < st.alignment_data.length then st.alignment_data.drop 1
    else st.alignment_data
  let ad1 : List (ℤ × ℤ) := ad0.map (fun q => (q.1 - offset, q.2))
  let ad : List (ℤ × ℤ) := ad1 ++ [(0, rtc)]
  let t0 := rtc + divRoundHalfEven
    (ad.foldl (fun acc q => acc + ((q.2 - q.1 * period) - rtc)) (0 : ℤ)) ad.length
  ({ st with
      tl := tl2
      alignment_data := ad
      alignment_t0 := some t0
      batch_seq_abs0 := st.batch_seq_abs0.map (fun a => a - offset) },
   pre.2)

/-! ## StreamBuffer persistence (`_parse_sample_data` / `_emit_existing`)

`struct_utils.read_single` / `read_all` are imported by
`sensor_stream.py` from this package but the module is not present in
the source tree.  Their use is modelled from the spec: `read_single`
reads exactly one struct record ("a half-written file at startup either
parses with correct header or is discarded", so a short header is a
discard), and `read_all` yields every complete record of the remaining
bytes. -/

/-- Failure modes of `_parse_sample_data` that escape the constructor:
`datetime.utcfromtimestamp` raises for epoch seconds beyond year 9999
and `datetime.replace` raises for a microsecond field `≥ 10^6`. -/
inductive ParseErr where
  | valueError
  | overflowError
deriving Repr, DecidableEq

/-- Modelled from the spec: `struct_utils.read_all(f, "<h")` decodes
every complete signed 16-bit little-endian record of the remaining
file bytes. -/
def decodeSamplesLE : List ℕ → List ℤ
  | b0 :: b1 :: rest => toSigned16 (b0 + 256 * b1) :: decodeSamplesLE rest
  | _ => []

/-- Modelled from the spec: `struct_utils.read_single(f, "<BQLQc")`
reads the 22-byte header, `none` on a short file. -/
def readHeader (bytes : List ℕ) : Option (ℕ × ℕ × ℕ × ℕ × ℕ × List ℕ) := do
  let (version, r1) ← readU8 bytes
  let (t0s, r2) ← readU64LE r1
  let (t0us, r3) ← readU32LE r2
  let (per, r4) ← readU64LE r3
  let (stype, r5) ← readU8 r4
  some (version, t0s, t0us, per, stype, r5)

/-- `Buffer._parse_sample_data`: `.ok none` is the discard path (short
or unknown-version header), `.ok (some (t0, period, data))` the parsed
content, `.error` an exception escaping the parse (out-of-range
timestamp fields in a version-0 header). -/
def Buffer.parseSampleData (bytes : List ℕ) :
    Except ParseErr (Option (ℤ × ℤ × List ℤ)) :=
  match readHeader bytes with
  | none => .ok none
  | some (version, t0s, t0us, per, _stype, rest) =>
    if version ≠ 0 then .ok none
    else if maxDatetimeS < (t0s : ℤ) then .error .overflowError
    else if 1000000 ≤ t0us then .error .valueError
    else .ok (some ((t0s : ℤ) * 1000000 + t0us, (per : ℤ), decodeSamplesLE rest))

/-- `Buffer._emit_existing`: absent file does nothing; a parsed file is
emitted and unlinked; a discarded file is unlinked without emission; an
exception propagates out of the constructor, leaving the file behind. -/
def Buffer.emitExisting (file : Option (List ℕ)) :
    Except ParseErr (Option (List ℕ) × List Emission) :=
  match file with
  | none => .ok (none, [])
  | some bytes =>
    match Buffer.parseSampleData bytes with
    | .error e => .error e
    | .ok none => .ok (none, [])
    | .ok (some (t0, per, data)) => .ok (none, [⟨t0, per, data⟩])

/-- `Buffer.__init__` of a directory whose `current` file holds `file`:
fresh state plus the `_emit_existing` replay. -/
def Buffer.construct (batch_size : ℕ) (file : Option (List ℕ)) :
    Except ParseErr (BufState × List Emission) :=
  match Buffer.emitExisting file with
  | .error e => .error e
  | .ok (f2, ems) => .ok ({ mkBuffer batch_size with file := f2 }, ems)

/-! ## Ingestor gating (`SensorNode2Daemon._on_message`)

Messages are abstracted to the three classes `_on_message`
distinguishes: STATUS messages (carrying how far their RTC lags wall
clock at receipt, in microseconds), messages with `get_samples` and
sensor stream messages.  `_process_non_status_message` forwards the
latter two (to the sample sinks resp. the stream buffer) and ignores
status messages (they have no `get_samples` and are no
`SensorStreamMessage`); forwarding is recorded in an event list. -/

inductive IngMsg where
  | status (retardation : ℤ)
  | sampleMsg (id : ℕ)
  | streamMsg (id : ℕ)
deriving Repr, DecidableEq

def IngMsg.isStatus : IngMsg → Bool
  | .status _ => true
  | _ => false

/-- A status message whose RTC is within 60 seconds of wall clock. -/
def IngMsg.inWindow : IngMsg → Bool
  | .status retardation => retardation ≤ 60 * 1000000
  | _ => false

structure IngState where
  had_status : Bool
  pre_status_buffer : List IngMsg
  forwarded : List IngMsg
deriving Repr, DecidableEq

def initIngState : IngState := ⟨false, [], []⟩

/-- `SensorNode2Daemon._process_non_status_message`. -/
def processNonStatusMessage (st : IngState) (m : IngMsg) : IngState :=
  match m with
  | .status _ => st
  | _ => { st with forwarded := st.forwarded ++ [m] }

/-- The tail of `_on_message` after the status-specific handling:
replay and clear the pre-status buffer then process the message, or
buffer it while no status has been seen. -/
def Ingestor.dispatchTail (st : IngState) (m : IngMsg) : IngState :=
  if st.had_status then
    let st1 := st.pre_status_buffer.foldl processNonStatusMessage st
    let st2 := { st1 with pre_status_buffer := [] }
    processNonStatusMessage st2 m
  else
    { st with pre_status_buffer := st.pre_status_buffer ++ [m] }

/-- `SensorNode2Daemon._on_message`.  The RTCifier/stream-buffer
alignment performed for an accepted status message does not interact
with gating and is not represented. -/
def Ingestor.onMessage (st : IngState) (m : IngMsg) : IngState :=
  match m with
  | .status retardation =>
    if 60 * 1000000 < retardation then st
    else Ingestor.dispatchTail { st with had_status := true } m
  | _ => Ingestor.dispatchTail st m

/-- Feed a message list through `_on_message`. -/
def Ingestor.run (msgs : List IngMsg) : IngState :=
  msgs.foldl Ingestor.onMessage initIngState

/-! ## STATUS decoding (`protocol.StatusMessage.from_buf`) -/

structure IMUStreamState where
  sequence_number : ℕ
  timestamp : ℕ
  period_ms : ℕ
deriving Repr, DecidableEq

structure I2CMetrics where
  transaction_overruns : ℕ
deriving Repr, DecidableEq

structure BME280Metrics where
  configure_status : ℕ
  timeouts : ℕ
deriving Repr, DecidableEq

/-- The class-attribute defaults of `StatusMessage.BME280Metrics`
(`configure_status = 0xff`, `timeouts = 0`). -/
def BME280Metrics.defaults : BME280Metrics := ⟨0xff, 0⟩

structure TXMetrics where
  most_buffers_allocated : ℕ
  buffers_allocated : ℕ
  buffers_ready : ℕ
  buffers_total : ℕ
deriving Repr, DecidableEq

structure TasksMetrics where
  idle_ticks : ℕ
  tasks : List ℕ
deriving Repr, DecidableEq

/-- The 32 raw `u16` counters of `CPUMetrics`; the idle / sched /
interrupt / task split is a pure projection through constants of the
generated `_sn2d_comm` C header, which is not part of the source
tree, and no claim depends on it. -/
structure CPUMetrics where
  data : List ℕ
deriving Repr, DecidableEq

structure StatusMessage where
  rtc : ℕ
  uptime : ℕ
  v1_accel_stream_state : Option IMUStreamState
  v1_compass_stream_state : Option IMUStreamState
  v2_i2c_metrics : Option (List I2CMetrics)
  v2_bme280_metrics : Option BME280Metrics
  v4_bme280_metrics : Option (List BME280Metrics)
  v5_tx_metrics : Option TXMetrics
  v5_task_metrics : Option TasksMetrics
  v6_cpu_metrics : Option CPUMetrics
deriving Repr, DecidableEq

inductive StatusErr where
  | unsupportedProtocol
  | unsupportedStatusVersion
  | truncated
deriving Repr, DecidableEq

def liftOpt {α : Type} : Option α → Except StatusErr α
  | none => .error .truncated
  | some a => .ok a

/-- The `<LHBB` base header: `u32 rtc`, `u16 uptime`, `u8
protocol_version`, `u8 status_version`. -/
def statusBaseHeader (buf : List ℕ) : Option (ℕ × ℕ × ℕ × ℕ × List ℕ) := do
  let (rtc, b1) ← readU32LE buf
  let (uptime, b2) ← readU16LE b1
  let (pv, b3) ← readU8 b2
  let (sv, b4) ← readU8 b3
  some (rtc, uptime, pv, sv, b4)

/-- `IMUStreamState.unpack_and_splice` (`<HHH`; the period is stored
as a millisecond timedelta). -/
def IMUStreamState.unpackAndSplice (buf : List ℕ) :
    Option (IMUStreamState × List ℕ) := do
  let (seq, b1) ← readU16LE buf
  let (ts, b2) ← readU16LE b1
  let (per, b3) ← readU16LE b2
  some (⟨seq, ts, per⟩, b3)

/-- `I2CMetrics.unpack_and_splice` (`<H`). -/
def I2CMetrics.unpackAndSplice (buf : List ℕ) :
    Option (I2CMetrics × List ℕ) := do
  let (t, b1) ← readU16LE buf
  some (⟨t⟩, b1)

/-- `BME280Metrics.unpack_and_splice`: `<H` with `configure_status`
forced to `0x00` below version 3, `<BH` from version 3 on. -/
def BME280Metrics.unpackAndSplice (version : ℕ) (buf : List ℕ) :
    Option (BME280Metrics × List ℕ) :=
  if version < 3 then do
    let (t, b1) ← readU16LE buf
    some (⟨0x00, t⟩, b1)
  else do
    let (c, b1) ← readU8 buf
    let (t, b2) ← readU16LE b1
    some (⟨c, t⟩, b2)

/-- `TXMetrics.unpack_and_splice` (`<HHHH`). -/
def TXMetrics.unpackAndSplice (buf : List ℕ) :
    Option (TXMetrics × List ℕ) := do
  let (a, b1) ← readU16LE buf
  let (b, b2) ← readU16LE b1
  let (c, b3) ← readU16LE b2
  let (d, b4) ← readU16LE b3
  some (⟨a, b, c, d⟩, b4)

/-- Read `n` consecutive `u16` values. -/
def readNU16 : ℕ → List ℕ → Option (List ℕ × List ℕ)
  | 0, buf => some ([], buf)
  | n + 1, buf => do
    let (v, b1) ← readU16LE buf
    let (vs, b2) ← readNU16 n b1
    some (v :: vs, b2)

/-- `TasksMetrics.unpack_and_splice` (`<BH` then `count` times `<H`). -/
def TasksMetrics.unpackAndSplice (buf : List ℕ) :
    Option (TasksMetrics × List ℕ) := do
  let (count, b1) ← readU8 buf
  let (idle, b2) ← readU16LE b1
  let (tasks, b3) ← readNU16 count b2
  some (⟨idle, tasks⟩, b3)

/-- `StatusMessage.from_buf`. -/
def StatusMessage.from_buf (buf : List ℕ) : Except StatusErr StatusMessage := do
  let (rtc, uptime, pv, sv, b0) ← liftOpt (statusBaseHeader buf)
  if pv ≠ 1 then .error .unsupportedProtocol
  else if 6 < sv then .error .unsupportedStatusVersion
  else do
    let (v1a, v1c, b1) ←
      if 1 ≤ sv then do
        let (a, x1) ← liftOpt (IMUStreamState.unpackAndSplice b0)
        let (c, x2) ← liftOpt (IMUStreamState.unpackAndSplice x1)
        Except.ok (some a, some c, x2)
      else Except.ok (none, none, b0)
    let (i2c, v2b, v4b, b2) ←
      if 2 ≤ sv then do
        let (m0, x1) ← liftOpt (I2CMetrics.unpackAndSplice b1)
        let (m1, x2) ← liftOpt (I2CMetrics.unpackAndSplice x1)
        if 4 ≤ sv then do
          let (n0, y1) ← liftOpt (BME280Metrics.unpackAndSplice sv x2)
          let (n1, y2) ← liftOpt (BME280Metrics.unpackAndSplice sv y1)
          Except.ok (some [m0, m1], some n0, some [n0, n1], y2)
        else do
          let (n0, y1) ← liftOpt (BME280Metrics.unpackAndSplice sv x2)
          Except.ok (some [m0, m1], some n0, some [n0, BME280Metrics.defaults], y1)
      else Except.ok (none, none, none, b1)
    let (tx, b3) ←
      if 5 ≤ sv then do
        let (t, x1) ← liftOpt (TXMetrics.unpackAndSplice b2)
        Except.ok (some t, x1)
      else Except.ok (none, b2)
    let (tasks, b4) ←
      if 5 ≤ sv ∧ sv < 6 then do
        let (t, x1) ← liftOpt (TasksMetrics.unpackAndSplice b3)
        Except.ok (some t, x1)
      else Except.ok (none, b3)
    let (cpu, _b5) ←
      if 6 ≤ sv then do
        let (vals, x1) ← liftOpt (readNU16 32 b4)
        Except.ok (some (CPUMetrics.mk vals), x1)
      else Except.ok (none, b4)
    Except.ok
      { rtc := rtc
        uptime := uptime
        v1_accel_stream_state := v1a
        v1_compass_stream_state := v1c
        v2_i2c_metrics := i2c
        v2_bme280_metrics := v2b
        v4_bme280_metrics := v4b
        v5_tx_metrics := tx
        v5_task_metrics := tasks
        v6_cpu_metrics := cpu }

/-! ## SENSOR_NOISE (`protocol.NoiseMessage`) -/

/-- One decoded noise sample as stored by `NoiseMessage.from_buf`:
`(ts, sqavg / (2^24 - 1) / factor, min, max)`. -/
structure NoiseRecord where
  ts : ℕ
  scaled : ℚ
  min : ℤ
  max : ℤ
deriving Repr, DecidableEq

inductive NoiseErr where
  /-- `sqavg / ... / factor` with `factor = 0` -/
  | zeroDivision
  /-- short header or (modelled from the spec, `hintlib` being an
  external collaborator) trailing bytes that fill no complete record -/
  | truncated
deriving Repr, DecidableEq

/-- `unpack_all(buf, "<HLhh")`: the raw `(ts, sqavg, min, max)` wire
records. -/
def unpackNoiseSamples : List ℕ → Option (List (ℕ × ℕ × ℤ × ℤ))
  | [] => some []
  | b0 :: b1 :: b2 :: b3 :: b4 :: b5 :: b6 :: b7 :: b8 :: b9 :: rest => do
    let recs ← unpackNoiseSamples rest
    some ((b0 + 256 * b1,
           b2 + 256 * b3 + 256 ^ 2 * b4 + 256 ^ 3 * b5,
           toSigned16 (b6 + 256 * b7),
           toSigned16 (b8 + 256 * b9)) :: recs)
  | _ => none

/-- `NoiseMessage.from_buf`: `{u8 factor}` then the samples, scaling
`sqavg` by `1 / (2^24 - 1) / factor` on the way in. -/
def NoiseMessage.from_buf (buf : List ℕ) : Except NoiseErr (List NoiseRecord) :=
  match buf with
  | [] => .error .truncated
  | factor :: rest =>
    if factor = 0 then .error .zeroDivision
    else
      match unpackNoiseSamples rest with
      | none => .error .truncated
      | some recs =>
        .ok (recs.map fun r =>
          ⟨r.1, (r.2.1 : ℚ) / (2 ^ 24 - 1) / (factor : ℚ), r.2.2.1, r.2.2.2⟩)

/-- The RMS value `NoiseMessage.get_samples` emits for a record:
`math.sqrt(sqavg)` of the already-scaled value, with no logarithm. -/
noncomputable def noiseRms (r : NoiseRecord) : ℝ := Real.sqrt (r.scaled : ℝ)

/-- The MIN value `NoiseMessage.get_samples` emits: `min / (2^15 - 1)`. -/
def noiseMin (r : NoiseRecord) : ℚ := (r.min : ℚ) / (2 ^ 15 - 1)

/-- The MAX value `NoiseMessage.get_samples` emits: `max / (2^15 - 1)`. -/
def noiseMax (r : NoiseRecord) : ℚ := (r.max : ℚ) / (2 ^ 15 - 1)

/-- Modelled from the spec (for comparison with the code): the claimed
RMS sample `20·log10(sqrt(sqavg/(2^24-1)/factor))` in dB, `−96` when
the logarithm's argument causes a math domain error. -/
noncomputable def specClaimedRms (r : NoiseRecord) : ℝ :=
  if 0 < Real.sqrt (r.scaled : ℝ) then 20 * Real.logb 10 (Real.sqrt (r.scaled : ℝ))
  else -96

/-! ## SENSOR_STREAM_* (`protocol.SensorStreamMessage`) -/

/-- `SensorStreamMessage.from_buf`: header `struct.Struct("<HH")` (two
unsigned 16-bit fields `seq` and `reference`), then
`sensor_stream.decompress(reference, rest)`.  Returns `(seq, data)`. -/
def SensorStreamMessage.from_buf (buf : List ℕ) :
    Except CodecErr (ℕ × List ℤ) :=
  match buf with
  | b0 :: b1 :: b2 :: b3 :: rest =>
    match decompress ((b2 + 256 * b3 : ℕ) : ℤ) rest with
    | .ok data => .ok (b0 + 256 * b1, data)
    | .error e => .error e
  | _ => .error .structError

/-! ## Control protocol (`control_protocol.ControlProtocol.detect`)

Python tuples are modelled by `PyVal` so the shape of the returned
value is a fact about the embedding. -/

inductive PyVal where
  | num (z : ℤ)
  | str (bytes : List ℕ)
  | tup (items : List PyVal)

/-- Number of components of a Python tuple value. -/
def PyVal.arity : PyVal → ℕ
  | .tup items => items.length
  | _ => 1

/-- `un_C_str`: the bytes before the first NUL (all of them when no NUL
is present); `bytes.decode("ascii")` is kept as the byte list. -/
def un_C_str (b : List ℕ) : List ℕ := b.takeWhile (· ≠ 0)

/-- Big-endian `u32`. -/
def beU32 (b : List ℕ) : ℕ := b.foldl (fun acc x => acc * 256 + x) 0

/-- `SetupPacket.unpack` (`">BLB16s16s"`, exactly 38 bytes):
`(type, msg_id, version, dest_addr, sntp_addr)`; `struct.error`
(hence `none`) for any other length. -/
def SetupPacket.unpack (resp : List ℕ) :
    Option (ℕ × ℕ × ℕ × List ℕ × List ℕ) :=
  if resp.length = 38 then
    some (resp.headI, beU32 ((resp.drop 1).take 4), (resp.drop 5).headI,
          (resp.drop 6).take 16, (resp.drop 22).take 16)
  else none

/-- The value `ControlProtocol.detect` returns once the matching
response `(addr, buf)` arrives: `addr[0], (dest_addr, sntp_addr)` —
a 2-tuple whose second component is the pair of decoded
zero-terminated strings.  No round-trip time is measured or returned. -/
def ControlProtocol.detectResult (peer : List ℕ) (response : List ℕ) :
    Option PyVal :=
  match SetupPacket.unpack response with
  | none => none
  | some (_, _, _, dest_addr, sntp_addr) =>
    some (.tup [.str peer, .tup [.str (un_C_str dest_addr), .str (un_C_str sntp_addr)]])

/-- The parameters of the emission callback the daemon configures
(`SensorNode2Daemon._on_stream_emit`). -/
def onStreamEmitParams : List String :=
  ["path", "t0", "seq0", "period", "data", "handle"]

/-- The number of arguments `functools.partial(self._on_stream_emit,
path)` binds in `SensorNode2Daemon.__init__`. -/
def partialBoundArgs : ℕ := 1

/-- The positional arguments `Buffer._emit` passes to `on_emit`. -/
def Buffer.emitCallArgs (e : Emission) : List PyVal :=
  [.num e.t0, .num e.period, .tup (e.samples.map .num)]

/-! ## Demonstration inputs used by evaluation theorems and witnesses -/

/-- A SENSOR_STREAM_* body: `seq = 123`, reference field bytes
`0xee 0xff` (the little-endian serialisation of `0xffee`), empty
residual payload. -/
def demoStreamBuf : List ℕ := [123, 0, 0xee, 0xff]

/-- Peer address (`addr[0]`) of a detect exchange, as ASCII bytes. -/
def demoPeer : List ℕ := [49, 48, 46, 48, 46, 48, 46, 49]

/-- A well-formed 38-byte SETUP response: type, msg_id, version, then
`dest_addr = "host"` and `sntp_addr = "pool"`, NUL-padded to 16. -/
def demoResponse : List ℕ :=
  [3, 0, 0, 0, 1, 0] ++
  ([104, 111, 115, 116] ++ List.replicate 12 0) ++
  ([112, 111, 111, 108] ++ List.replicate 12 0)

/-- Claim C5 (code_bug evaluation): `SensorStreamMessage.from_buf`
unpacks the reference field with `struct.Struct("<HH")` — unsigned —
so the reference bytes `0xee 0xff` produce `65518` as the first decoded
sample, not the signed value `−18` that the claim (and the repository's
own test, which asserts `decompress` is called with `−18`) requires. -/
theorem c5_reference_unsigned_eval :
    SensorStreamMessage.from_buf demoStreamBuf = .ok (123, [65518]) ∧
    toSigned16 0xffee = -18 ∧
    ((65518 : ℤ) ≠ -18) := by
  refine ⟨rfl, by decide, by decide⟩

/-- Claim C7 (code_bug evaluation): `Buffer._emit` passes three
positional arguments `(t0, period, samples)` to `on_emit`, while the
callback the daemon configures — `functools.partial(_on_stream_emit,
path)` over the six-parameter `_on_stream_emit(path, t0, seq0, period,
data, handle)` — needs five more after the bound `path`.  The call
supplies 1 + 3 = 4 of 6 parameters, so every production emission raises
`TypeError`; no `handle` exists whose `close` could signal durable
acceptance. -/
theorem c7_emit_arity_eval (e : Emission) :
    (Buffer.emitCallArgs e).length = 3 ∧
    onStreamEmitParams.length = 6 ∧
    partialBoundArgs + (Buffer.emitCallArgs e).length = 4 ∧
    partialBoundArgs + (Buffer.emitCallArgs e).length ≠ onStreamEmitParams.length := by
  refine ⟨rfl, rfl, rfl, ?_⟩
  have h4 : partialBoundArgs + (Buffer.emitCallArgs e).length = 4 := rfl
  have h6 : onStreamEmitParams.length = 6 := rfl
  rw [h4, h6]
  decide

/-- Claim C9 (code_bug evaluation): on a successful exchange
`ControlProtocol.detect` returns `addr[0], (dest_addr, sntp_addr)` — a
2-tuple whose second component is the pair of NUL-stripped strings.
There is no fourth (nor even third) component and no rtt measurement;
the caller `SensorNode2Daemon._detect_and_configure` unpacks three
values `remote_addr, (dest_addr, sntp_addr), rtt` and would raise
`ValueError`, and the claimed 4-component reading fails likewise. -/
theorem c9_detect_shape_eval :
    ControlProtocol.detectResult demoPeer demoResponse =
      some (PyVal.tup [PyVal.str demoPeer,
        PyVal.tup [PyVal.str [104, 111, 115, 116],
                   PyVal.str [112, 111, 111, 108]]]) ∧
    (PyVal.tup [PyVal.str demoPeer,
        PyVal.tup [PyVal.str [104, 111, 115, 116],
                   PyVal.str [112, 111, 111, 108]]]).arity = 2 ∧
    ((2 : ℕ) ≠ 3) ∧ ((2 : ℕ) ≠ 4) := by
  refine ⟨rfl, rfl, by decide, by decide⟩

/-- The one-record SENSOR_NOISE buffer `factor = 1`, `ts = 0`,
`sqavg = 0`, `min = 0`, `max = 0`. -/
def demoNoiseBuf : List ℕ := [1, 0, 0, 0, 0, 0, 0, 0, 0, 0, 0]

/-- Claim C6 (counterexample): for the decoded record with
`sqavg = 0`, `NoiseMessage.get_samples` emits
`math.sqrt(scaled) = 0` as the RMS sample, while the claimed value —
`20·log10(sqrt(0))`, a math domain error, hence `−96` — differs.  The
code contains no logarithm and no `−96` fallback. -/
theorem c6_noise_rms_counterexample :
    NoiseMessage.from_buf demoNoiseBuf = .ok [⟨0, 0, 0, 0⟩] ∧
    noiseRms ⟨0, 0, 0, 0⟩ = 0 ∧
    specClaimedRms ⟨0, 0, 0, 0⟩ = -96 ∧
    noiseRms ⟨0, 0, 0, 0⟩ ≠ specClaimedRms ⟨0, 0, 0, 0⟩ := by
  have h1 : NoiseMessage.from_buf demoNoiseBuf = .ok [⟨0, 0, 0, 0⟩] := by
    norm_num [NoiseMessage.from_buf, demoNoiseBuf, unpackNoiseSamples, toSigned16]
  have h2 : noiseRms ⟨0, 0, 0, 0⟩ = 0 := by
    simp [noiseRms]
  have h3 : specClaimedRms ⟨0, 0, 0, 0⟩ = -96 := by
    simp [specClaimedRms]
  exact ⟨h1, h2, h3, by rw [h2, h3]; norm_num⟩

/-- Claim C6 (amended): for every decoded SENSOR_NOISE record the
emitted RMS sample equals `sqrt(sqavg/(2^24−1)/factor)` — with no
logarithm and no −96 fallback — and the emitted MIN and MAX samples
equal `min/(2^15−1)` and `max/(2^15−1)`, where `(ts, sqavg, min, max)`
are the wire fields of the record. -/
theorem c6_noise_samples_amended (factor : ℕ) (rest : List ℕ)
    (raws : List (ℕ × ℕ × ℤ × ℤ)) (hf : factor ≠ 0)
    (hu : unpackNoiseSamples rest = some raws) :
    ∃ recs, NoiseMessage.from_buf (factor :: rest) = .ok recs ∧
      recs.length = raws.length ∧
      ∀ i (hi : i < recs.length) (hj : i < raws.length),
        (recs.get ⟨i, hi⟩).ts = (raws.get ⟨i, hj⟩).1 ∧
        noiseRms (recs.get ⟨i, hi⟩) =
          Real.sqrt (((raws.get ⟨i, hj⟩).2.1 : ℝ) / (2 ^ 24 - 1) / (factor : ℝ)) ∧
        noiseMin (recs.get ⟨i, hi⟩) = ((raws.get ⟨i, hj⟩).2.2.1 : ℚ) / (2 ^ 15 - 1) ∧
        noiseMax (recs.get ⟨i, hi⟩) = ((raws.get ⟨i, hj⟩).2.2.2 : ℚ) / (2 ^ 15 - 1) := by
  refine ⟨raws.map fun r => ⟨r.1, (r.2.1 : ℚ) / (2 ^ 24 - 1) / (factor : ℚ), r.2.2.1, r.2.2.2⟩,
    ?_, by simp, ?_⟩
  · simp only [NoiseMessage.from_buf, hu, hf, if_false]
  · intro i hi hj
    refine ⟨by simp, ?_, by simp [noiseMin], by simp [noiseMax]⟩
    simp only [noiseRms, List.get_map]
    congr 1
    push_cast
    ring

/-- A buffer state with an open but empty batch (`batch_seq_abs0 = 200`
after a just-emitted block, `batch_data = []`), aligned with period
5000 µs. -/
def demoBufState : BufState :=
  ⟨⟨0, 0, 2 ^ 16, 2 ^ 15⟩, 200, some 200, some [], some 5000, some 0, [(0, 0)], none⟩

/-- A `current` file consisting of a valid version-0 header and no
samples. -/
def demoHeaderOnlyFile : List ℕ := headerBytes 0 5000

/-- Claim C10 (counterexample): a period-changing `align` on a buffer
with an open empty batch emits nothing — but it does NOT leave the
batch state untouched: `batch_seq_abs0` is re-based from 200 to 190 by
the alignment offset.  Moreover, replaying a header-only `current`
file on construction invokes the emit callback with an empty sample
list. -/
theorem c10_empty_emit_counterexample :
    (Buffer.align demoBufState 10 0 10000).2 = [] ∧
    (Buffer.align demoBufState 10 0 10000).1.batch_seq_abs0 = some 190 ∧
    demoBufState.batch_seq_abs0 = some 200 ∧
    (some (190 : ℤ) ≠ some (200 : ℤ)) ∧
    Buffer.emitExisting (some demoHeaderOnlyFile) = .ok (none, [⟨0, 5000, []⟩]) := by
  refine ⟨by decide, by decide, by decide, by decide, by rfl⟩

/-- Claim C10 (amended): `_emit` returns without invoking the callback
when no batch data is pending, so an `align` call while no samples are
buffered produces no emission and leaves the batch contents unchanged
(though an open batch's base sequence number may be re-based by the
alignment offset, and a header-only `current` file replays as an empty
emission at construction). -/
theorem c10_empty_emit_amended (st : BufState) (seq rtc p : ℤ)
    (h : st.batch_data = none ∨ st.batch_data = some []) :
    Buffer.emit st = (st, []) ∧
    (Buffer.align st seq rtc p).2 = [] ∧
    (Buffer.align st seq rtc p).1.batch_data = st.batch_data := by
  have he : Buffer.emit st = (st, []) := by
    rcases h with h | h <;> simp [Buffer.emit, h]
  refine ⟨he, ?_, ?_⟩ <;>
    by_cases hp : st.period ≠ some p <;>
      simp [Buffer.align, hp, he]

/-- Witness for the amended claim C10 at the concrete open-empty-batch
state. -/
theorem c10_empty_emit_amended_witness :
    demoBufState.batch_data = some [] ∧
    Buffer.emit demoBufState = (demoBufState, []) ∧
    (Buffer.align demoBufState 7 0 10000).2 = [] ∧
    (Buffer.align demoBufState 7 0 10000).1.batch_data = demoBufState.batch_data := by
  have h := c10_empty_emit_amended demoBufState 7 0 10000 (Or.inr rfl)
  exact ⟨rfl, h.1, h.2.1, h.2.2⟩

/-- Wire bytes of one noise record `(ts = 9, sqavg = 100, min = −5,
max = 7)`. -/
def demoNoiseRest : List ℕ := [9, 0, 100, 0, 0, 0, 251, 255, 7, 0]

def demoNoiseRaws : List (ℕ × ℕ × ℤ × ℤ) := [(9, 100, -5, 7)]

/-- Witness for the amended claim C6 at a concrete one-record buffer
with `factor = 2`. -/
theorem c6_noise_samples_amended_witness :
    (2 : ℕ) ≠ 0 ∧
    unpackNoiseSamples demoNoiseRest = some demoNoiseRaws ∧
    (∃ recs, NoiseMessage.from_buf (2 :: demoNoiseRest) = .ok recs ∧
      recs.length = demoNoiseRaws.length ∧
      ∀ i (hi : i < recs.length) (hj : i < demoNoiseRaws.length),
        (recs.get ⟨i, hi⟩).ts = (demoNoiseRaws.get ⟨i, hj⟩).1 ∧
        noiseRms (recs.get ⟨i, hi⟩) =
          Real.sqrt (((demoNoiseRaws.get ⟨i, hj⟩).2.1 : ℝ) / (2 ^ 24 - 1) / ((2 : ℕ) : ℝ)) ∧
        noiseMin (recs.get ⟨i, hi⟩) = ((demoNoiseRaws.get ⟨i, hj⟩).2.2.1 : ℚ) / (2 ^ 15 - 1) ∧
        noiseMax (recs.get ⟨i, hi⟩) = ((demoNoiseRaws.get ⟨i, hj⟩).2.2.2 : ℚ) / (2 ^ 15 - 1)) := by
  exact ⟨by decide, by decide,
    c6_noise_samples_amended 2 demoNoiseRest demoNoiseRaws (by decide) (by decide)⟩

/-- Replaying a buffer through `_process_non_status_message` appends
exactly its non-status messages to the forwarded log and changes
nothing else. -/
theorem foldl_processNonStatusMessage (l : List IngMsg) (st : IngState) :
    l.foldl processNonStatusMessage st =
      { st with forwarded := st.forwarded ++ l.filter (fun m => !m.isStatus) } := by
  induction l generalizing st with
  | nil => simp
  | cons m l ih =>
    cases m with
    | status r =>
      simp only [List.foldl_cons, processNonStatusMessage, ih]
      simp [IngMsg.isStatus]
    | sampleMsg i =>
      simp only [List.foldl_cons, processNonStatusMessage, ih]
      simp [IngMsg.isStatus]
    | streamMsg i =>
      simp only [List.foldl_cons, processNonStatusMessage, ih]
      simp [IngMsg.isStatus]

/-- Once gating is open and the buffer empty, the run forwards exactly
the non-status messages, in order. -/
theorem run_steady (msgs : List IngMsg) (st : IngState)
    (h1 : st.had_status = true) (h2 : st.pre_status_buffer = []) :
    msgs.foldl Ingestor.onMessage st =
      ⟨true, [], st.forwarded ++ msgs.filter (fun m => !m.isStatus)⟩ := by
  induction msgs generalizing st with
  | nil =>
    cases st
    simp_all
  | cons m msgs ih =>
    cases m with
    | status r =>
      by_cases hl : 60 * 1000000 < r
      · simp only [List.foldl_cons, Ingestor.onMessage, if_pos hl]
        rw [ih st h1 h2]
        simp [IngMsg.isStatus]
      · simp only [List.foldl_cons, Ingestor.onMessage, if_neg hl,
          Ingestor.dispatchTail]
        simp only [h1, h2, if_true, List.foldl_nil, processNonStatusMessage]
        rw [ih _ rfl rfl]
        simp [IngMsg.isStatus]
    | sampleMsg i =>
      simp only [List.foldl_cons, Ingestor.onMessage, Ingestor.dispatchTail]
      simp only [h1, h2, if_true, List.foldl_nil, processNonStatusMessage]
      rw [ih _ rfl rfl]
      simp [IngMsg.isStatus]
    | streamMsg i =>
      simp only [List.foldl_cons, Ingestor.onMessage, Ingestor.dispatchTail]
      simp only [h1, h2, if_true, List.foldl_nil, processNonStatusMessage]
      rw [ih _ rfl rfl]
      simp [IngMsg.isStatus]

/-- Before any in-window status arrives, nothing is forwarded and every
non-status message is buffered, in order; late statuses leave no trace. -/
theorem run_pre_no_window (msgs : List IngMsg) (st : IngState)
    (h1 : st.had_status = false) (hw : msgs.any IngMsg.inWindow = false) :
    msgs.foldl Ingestor.onMessage st =
      ⟨false, st.pre_status_buffer ++ msgs.filter (fun m => !m.isStatus),
       st.forwarded⟩ := by
  induction msgs generalizing st with
  | nil =>
    cases st
    simp_all
  | cons m msgs ih =>
    simp only [List.any_cons, Bool.or_eq_false_iff] at hw
    cases m with
    | status r =>
      have hl : 60 * 1000000 < r := by
        have := hw.1
        simp [IngMsg.inWindow] at this
        omega
      simp only [List.foldl_cons, Ingestor.onMessage, if_pos hl]
      rw [ih st h1 hw.2]
      simp [IngMsg.isStatus]
    | sampleMsg i =>
      simp only [List.foldl_cons, Ingestor.onMessage, Ingestor.dispatchTail]
      simp only [h1, if_false, Bool.false_eq_true]
      rw [ih _ rfl hw.2]
      simp [IngMsg.isStatus]
    | streamMsg i =>
      simp only [List.foldl_cons, Ingestor.onMessage, Ingestor.dispatchTail]
      simp only [h1, if_false, Bool.false_eq_true]
      rw [ih _ rfl hw.2]
      simp [IngMsg.isStatus]

/-- When some in-window status arrives, the run opens gating, replays
the buffer exactly once, and ends having forwarded precisely the
non-status messages of buffer and input, in order. -/
theorem run_pre_window (msgs : List IngMsg) (st : IngState)
    (h1 : st.had_status = false) (hw : msgs.any IngMsg.inWindow = true) :
    msgs.foldl Ingestor.onMessage st =
      ⟨true, [],
       st.forwarded ++
         (st.pre_status_buffer ++ msgs).filter (fun m => !m.isStatus)⟩ := by
  induction msgs generalizing st with
  | nil => simp at hw
  | cons m msgs ih =>
    by_cases hm : m.inWindow = true
    · obtain ⟨r, rfl⟩ : ∃ r, m = .status r := by
        cases m with
        | status r => exact ⟨r, rfl⟩
        | sampleMsg i => simp [IngMsg.inWindow] at hm
        | streamMsg i => simp [IngMsg.inWindow] at hm
      have hl : ¬ 60 * 1000000 < r := by
        simp [IngMsg.inWindow] at hm
        omega
      simp only [List.foldl_cons, Ingestor.onMessage, if_neg hl,
        Ingestor.dispatchTail]
      simp only [if_true, foldl_processNonStatusMessage, processNonStatusMessage]
      rw [run_steady msgs _ rfl rfl]
      simp [IngMsg.isStatus, List.filter_append]
    · have hw' : msgs.any IngMsg.inWindow = true := by
        simp only [List.any_cons, hm, Bool.false_or] at hw
        exact hw
      cases m with
      | status r =>
        have hl : 60 * 1000000 < r := by
          simp [IngMsg.inWindow] at hm
          omega
        simp only [List.foldl_cons, Ingestor.onMessage, if_pos hl]
        rw [ih st h1 hw']
        simp [IngMsg.isStatus]
      | sampleMsg i =>
        simp only [List.foldl_cons, Ingestor.onMessage, Ingestor.dispatchTail]
        simp only [h1, if_false, Bool.false_eq_true]
        rw [ih _ rfl hw']
        simp [IngMsg.isStatus, List.filter_append]
      | streamMsg i =>
        simp only [List.foldl_cons, Ingestor.onMessage, Ingestor.dispatchTail]
        simp only [h1, if_false, Bool.false_eq_true]
        rw [ih _ rfl hw']
        simp [IngMsg.isStatus, List.filter_append]

/-- Claim C4: in the Ingestor state machine, (a) while no in-window
STATUS has arrived nothing is forwarded and every non-STATUS message is
buffered in order; (b) as soon as some in-window STATUS arrives, the
run ends having forwarded exactly the non-STATUS messages of the input,
each exactly once, in order (the buffered ones replayed when gating
opens); (c) a STATUS message lagging wall clock by more than 60 seconds
is discarded without changing any state. -/
theorem c4_ingestor_gating (msgs : List IngMsg) :
    ((msgs.any IngMsg.inWindow = false) →
       (Ingestor.run msgs).forwarded = [] ∧
       (Ingestor.run msgs).pre_status_buffer =
         msgs.filter (fun m => !m.isStatus)) ∧
    ((msgs.any IngMsg.inWindow = true) →
       (Ingestor.run msgs).forwarded = msgs.filter (fun m => !m.isStatus)) ∧
    (∀ st retardation, 60 * 1000000 < retardation →
       Ingestor.onMessage st (.status retardation) = st) := by
  refine ⟨?_, ?_, ?_⟩
  · intro hw
    rw [Ingestor.run, run_pre_no_window msgs initIngState rfl hw]
    exact ⟨rfl, by simp [initIngState]⟩
  · intro hw
    rw [Ingestor.run, run_pre_window msgs initIngState rfl hw]
    simp [initIngState]
  · intro st retardation hl
    simp only [Ingestor.onMessage]
    rw [if_pos hl]

def demoMsgs : List IngMsg :=
  [.streamMsg 1, .status (10 ^ 9), .sampleMsg 2, .status 0, .streamMsg 3]

/-- Witness for claim C4: a run with one late status (discarded), one
in-window status (opens gating) and three non-status messages. -/
theorem c4_ingestor_gating_witness :
    demoMsgs.any IngMsg.inWindow = true ∧
    (Ingestor.run demoMsgs).forwarded =
      [.streamMsg 1, .sampleMsg 2, .streamMsg 3] ∧
    (60 * 1000000 < (10 ^ 9 : ℤ)) ∧
    Ingestor.onMessage initIngState (.status (10 ^ 9)) = initIngState := by
  refine ⟨by decide, ?_, by decide, ?_⟩
  · have h := (c4_ingestor_gating demoMsgs).2.1 (by decide)
    rw [h]
    decide
  · exact (c4_ingestor_gating demoMsgs).2.2 initIngState (10 ^ 9) (by decide)

theorem exceptBind_ok {ε α β : Type} (a : α) (f : α → Except ε β) :
    (Except.ok a >>= f : Except ε β) = f a := rfl

theorem exceptBind_err {ε α β : Type} (e : ε) (f : α → Except ε β) :
    ((Except.error e : Except ε α) >>= f) = .error e := rfl

/-- Below status version 3, every record
`BME280Metrics.unpack_and_splice` parses has its `configure_status`
forced to `0x00`. -/
theorem bme280_unpack_cs_lt3 (sv : ℕ) (hsv : sv < 3) (buf : List ℕ)
    (m : BME280Metrics) (rest : List ℕ)
    (h : BME280Metrics.unpackAndSplice sv buf = some (m, rest)) :
    m.configure_status = 0x00 := by
  unfold BME280Metrics.unpackAndSplice at h
  rw [if_pos hsv] at h
  cases hr : readU16LE buf with
  | none => rw [hr] at h; simp at h
  | some x =>
    rw [hr] at h
    simp only [Option.bind_eq_bind, Option.some_bind] at h
    cases h
    rfl

/-- Claim C3: STATUS decoding rejects every buffer with
`protocol_version ≠ 1` and every buffer with `status_version > 6`; for
`2 ≤ status_ver < 4` exactly one BME280 record is parsed and
`v4_bme280_metrics = [parsed, defaults(configure_status=0xFF,
timeouts=0)]`, with the parsed record's `configure_status` forced to
`0x00` when `status_ver < 3`; for `status_ver ≥ 4` two records are
parsed and `v2_bme280_metrics` is `v4_bme280_metrics[0]`. -/
theorem c3_status_decoding (buf : List ℕ) (rtc up pv sv : ℕ) (b0 : List ℕ)
    (hbase : statusBaseHeader buf = some (rtc, up, pv, sv, b0)) :
    (pv ≠ 1 → StatusMessage.from_buf buf = .error .unsupportedProtocol) ∧
    (pv = 1 → 6 < sv →
      StatusMessage.from_buf buf = .error .unsupportedStatusVersion) ∧
    (∀ r, StatusMessage.from_buf buf = .ok r → 2 ≤ sv → sv < 4 →
      ∃ m, r.v2_bme280_metrics = some m ∧
        r.v4_bme280_metrics = some [m, BME280Metrics.defaults] ∧
        (sv < 3 → m.configure_status = 0x00)) ∧
    (∀ r, StatusMessage.from_buf buf = .ok r → 4 ≤ sv →
      ∃ m0 m1, r.v4_bme280_metrics = some [m0, m1] ∧
        r.v2_bme280_metrics = some m0) := by
  have ha : pv ≠ 1 → StatusMessage.from_buf buf = .error .unsupportedProtocol := by
    intro hpv
    simp only [StatusMessage.from_buf, hbase, liftOpt, exceptBind_ok]
    rw [if_pos hpv]
  have hb : pv = 1 → 6 < sv →
      StatusMessage.from_buf buf = .error .unsupportedStatusVersion := by
    intro hpv h6
    subst hpv
    simp only [StatusMessage.from_buf, hbase, liftOpt, exceptBind_ok]
    rw [if_neg (by simp), if_pos h6]
  refine ⟨ha, hb, ?_, ?_⟩
  · intro r hok h2 h4
    have hpv : pv = 1 := by
      by_contra h
      rw [ha h] at hok
      simp at hok
    have h6 : ¬ 6 < sv := by
      by_contra h
      rw [hb hpv h] at hok
      simp at hok
    subst hpv
    simp only [StatusMessage.from_buf, hbase, liftOpt, exceptBind_ok] at hok
    rw [if_neg (by simp), if_neg h6] at hok
    rw [if_pos (show 1 ≤ sv by omega)] at hok
    cases hA : IMUStreamState.unpackAndSplice b0 with
    | none => rw [hA] at hok; simp [exceptBind_err] at hok
    | some xa =>
      rw [hA] at hok
      try simp only [liftOpt, exceptBind_ok] at hok
      cases hC : IMUStreamState.unpackAndSplice xa.2 with
      | none => rw [hC] at hok; simp [exceptBind_err] at hok
      | some xc =>
        rw [hC] at hok
        try simp only [liftOpt, exceptBind_ok] at hok
        rw [if_pos h2] at hok
        cases hI0 : I2CMetrics.unpackAndSplice xc.2 with
        | none => rw [hI0] at hok; simp [exceptBind_err] at hok
        | some xi0 =>
          rw [hI0] at hok
          try simp only [liftOpt, exceptBind_ok] at hok
          cases hI1 : I2CMetrics.unpackAndSplice xi0.2 with
          | none => rw [hI1] at hok; simp [exceptBind_err] at hok
          | some xi1 =>
            rw [hI1] at hok
            try simp only [liftOpt, exceptBind_ok] at hok
            rw [if_neg (show ¬ 4 ≤ sv by omega)] at hok
            cases hN : BME280Metrics.unpackAndSplice sv xi1.2 with
            | none => rw [hN] at hok; simp [exceptBind_err] at hok
            | some xn =>
              rw [hN] at hok
              try simp only [liftOpt, exceptBind_ok] at hok
              rw [if_neg (show ¬ 5 ≤ sv by omega),
                  if_neg (show ¬ (5 ≤ sv ∧ sv < 6) by omega),
                  if_neg (show ¬ 6 ≤ sv by omega)] at hok
              try simp only [exceptBind_ok] at hok
              cases hok
              exact ⟨xn.1, rfl, rfl, fun h3 => bme280_unpack_cs_lt3 sv h3 _ _ _
                (by rw [← hN])⟩
  · intro r hok h4
    have hpv : pv = 1 := by
      by_contra h
      rw [ha h] at hok
      simp at hok
    have h6 : ¬ 6 < sv := by
      by_contra h
      rw [hb hpv h] at hok
      simp at hok
    subst hpv
    simp only [StatusMessage.from_buf, hbase, liftOpt, exceptBind_ok] at hok
    rw [if_neg (by simp), if_neg h6] at hok
    rw [if_pos (show 1 ≤ sv by omega)] at hok
    cases hA : IMUStreamState.unpackAndSplice b0 with
    | none => rw [hA] at hok; simp [exceptBind_err] at hok
    | some xa =>
      rw [hA] at hok
      try simp only [liftOpt, exceptBind_ok] at hok
      cases hC : IMUStreamState.unpackAndSplice xa.2 with
      | none => rw [hC] at hok; simp [exceptBind_err] at hok
      | some xc =>
        rw [hC] at hok
        try simp only [liftOpt, exceptBind_ok] at hok
        rw [if_pos (show 2 ≤ sv by omega)] at hok
        cases hI0 : I2CMetrics.unpackAndSplice xc.2 with
        | none => rw [hI0] at hok; simp [exceptBind_err] at hok
        | some xi0 =>
          rw [hI0] at hok
          try simp only [liftOpt, exceptBind_ok] at hok
          cases hI1 : I2CMetrics.unpackAndSplice xi0.2 with
          | none => rw [hI1] at hok; simp [exceptBind_err] at hok
          | some xi1 =>
            rw [hI1] at hok
            try simp only [liftOpt, exceptBind_ok] at hok
            rw [if_pos h4] at hok
            cases hN0 : BME280Metrics.unpackAndSplice sv xi1.2 with
            | none => rw [hN0] at hok; simp [exceptBind_err] at hok
            | some xn0 =>
              rw [hN0] at hok
              try simp only [liftOpt, exceptBind_ok] at hok
              cases hN1 : BME280Metrics.unpackAndSplice sv xn0.2 with
              | none => rw [hN1] at hok; simp [exceptBind_err] at hok
              | some xn1 =>
                rw [hN1] at hok
                try simp only [liftOpt, exceptBind_ok] at hok
                by_cases h5 : 5 ≤ sv
                · rw [if_pos h5] at hok
                  cases hT : TXMetrics.unpackAndSplice xn1.2 with
                  | none => rw [hT] at hok; simp [exceptBind_err] at hok
                  | some xt =>
                    rw [hT] at hok
                    try simp only [liftOpt, exceptBind_ok] at hok
                    by_cases h56 : 5 ≤ sv ∧ sv < 6
                    · rw [if_pos h56] at hok
                      cases hK : TasksMetrics.unpackAndSplice xt.2 with
                      | none => rw [hK] at hok; simp [exceptBind_err] at hok
                      | some xk =>
                        rw [hK] at hok
                        try simp only [liftOpt, exceptBind_ok] at hok
                        rw [if_neg (show ¬ 6 ≤ sv by omega)] at hok
                        try simp only [exceptBind_ok] at hok
                        cases hok
                        exact ⟨xn0.1, xn1.1, rfl, rfl⟩
                    · rw [if_neg h56] at hok
                      try simp only [exceptBind_ok] at hok
                      rw [if_pos (show 6 ≤ sv by omega)] at hok
                      cases hU : readNU16 32 xt.2 with
                      | none => rw [hU] at hok; simp [exceptBind_err] at hok
                      | some xu =>
                        rw [hU] at hok
                        try simp only [liftOpt, exceptBind_ok] at hok
                        cases hok
                        exact ⟨xn0.1, xn1.1, rfl, rfl⟩
                · rw [if_neg h5] at hok
                  try simp only [exceptBind_ok] at hok
                  rw [if_neg (show ¬ (5 ≤ sv ∧ sv < 6) by omega),
                      if_neg (show ¬ 6 ≤ sv by omega)] at hok
                  try simp only [exceptBind_ok] at hok
                  cases hok
                  exact ⟨xn0.1, xn1.1, rfl, rfl⟩

/-- The scenario-S6 STATUS buffer: `rtc = 12345678`, `uptime = 12345`,
`proto_ver = 1`, `status_ver = 4`, two IMU stream states, two I2C
metrics, and BME280 records `(0x12, 20)` and `(0x34, 1204)`. -/
def demoStatusBuf : List ℕ :=
  [78, 97, 188, 0, 57, 48, 1, 4,
   12, 0, 123, 0, 5, 0, 13, 0, 124, 0, 64, 0,
   2, 0, 3, 0,
   18, 20, 0, 52, 180, 4]

def demoStatusRest : List ℕ :=
  [12, 0, 123, 0, 5, 0, 13, 0, 124, 0, 64, 0, 2, 0, 3, 0, 18, 20, 0, 52, 180, 4]

/-- The record `StatusMessage.from_buf` produces for `demoStatusBuf`. -/
def demoStatusRecord : StatusMessage :=
  { rtc := 12345678
    uptime := 12345
    v1_accel_stream_state := some ⟨12, 123, 5⟩
    v1_compass_stream_state := some ⟨13, 124, 64⟩
    v2_i2c_metrics := some [⟨2⟩, ⟨3⟩]
    v2_bme280_metrics := some ⟨0x12, 20⟩
    v4_bme280_metrics := some [⟨0x12, 20⟩, ⟨0x34, 1204⟩]
    v5_tx_metrics := none
    v5_task_metrics := none
    v6_cpu_metrics := none }

/-- Witness for claim C3 at the scenario-S6 buffer: the version-4 parse
succeeds and yields `v4_bme280_metrics = [(0x12, 20), (0x34, 1204)]`
with `v2_bme280_metrics` equal to the first entry. -/
theorem c3_status_decoding_witness :
    statusBaseHeader demoStatusBuf = some (12345678, 12345, 1, 4, demoStatusRest) ∧
    StatusMessage.from_buf demoStatusBuf = .ok demoStatusRecord ∧
    (∃ m0 m1, demoStatusRecord.v4_bme280_metrics = some [m0, m1] ∧
      demoStatusRecord.v2_bme280_metrics = some m0) ∧
    demoStatusRecord.v4_bme280_metrics = some [⟨0x12, 20⟩, ⟨0x34, 1204⟩] ∧
    demoStatusRecord.v2_bme280_metrics = some ⟨0x12, 20⟩ := by
  have hbase : statusBaseHeader demoStatusBuf =
      some (12345678, 12345, 1, 4, demoStatusRest) := by decide
  have hfull : StatusMessage.from_buf demoStatusBuf = .ok demoStatusRecord := by rfl
  exact ⟨hbase, hfull,
    (c3_status_decoding demoStatusBuf 12345678 12345 1 4 demoStatusRest
      hbase).2.2.2 demoStatusRecord hfull (by decide),
    by decide, by decide⟩

/-! ## The batching run: invariant and specification -/

theorem encLE_length (n x : ℕ) : (encLE n x).length = n := by
  induction n generalizing x with
  | zero => rfl
  | succ n ih => simp [encLE, ih]

theorem headerBytes_length (t0 p : ℤ) : (headerBytes t0 p).length = 22 := by
  simp [headerBytes, encLE_length]

theorem encSamples_append (a b : List ℤ) :
    encSamples (a ++ b) = encSamples a ++ encSamples b := by
  simp [encSamples]

/-- The `current` file contents determined by the alignment, the batch
base sequence and the pending samples (`Buffer._buffer_samples` keeps
the file in exactly this shape; `_emit` removes it). -/
def Buffer.fileFor (t0 p a : ℤ) (d : List ℤ) : Option (List ℕ) :=
  if d.isEmpty then none
  else some (headerBytes (t0 + p * a) p ++ encSamples d)

/-- Invariant of a stream buffer with an open batch during a contiguous
aligned run: `a` is the absolute sequence of the first pending sample,
`d` the pending samples; the timeline's local tip is the next expected
absolute sequence and the file mirrors the pending batch. -/
def OpenInv (B : ℕ) (t0 p : ℤ) (st : BufState) (a : ℤ) (d : List ℤ) : Prop :=
  st.batch_size = B ∧ st.period = some p ∧ st.alignment_t0 = some t0 ∧
  st.batch_seq_abs0 = some a ∧ st.batch_data = some d ∧
  st.tl.wraparound_at = 2 ^ 16 ∧ st.tl.slack = 2 ^ 15 ∧
  0 ≤ st.tl.remote_tip ∧ st.tl.remote_tip < 2 ^ 16 ∧
  st.tl.local_tip = a + d.length ∧
  st.file = Buffer.fileFor t0 p a d ∧
  d.length < B

/-- Feeding the timeline its own tip is the in-slack no-op returning the
local tip (`wraparound_aware_minus` gives 0, which lies in the slack
region). -/
theorem feed_contiguous (tl : Timeline) (hS : 0 < tl.slack) :
    tl.feed_and_transform tl.remote_tip = (tl, tl.local_tip) := by
  unfold Timeline.feed_and_transform Timeline.wraparound_aware_minus
  simp [hS, Int.emod_emod_of_dvd]

/-- `Buffer._buffer_samples` on an invariant-shaped state: rewrite the
header, append the samples to file and batch, advance the timeline. -/
theorem bufferSamples_spec (st : BufState) (a t0 p : ℤ) (d : List ℤ)
    (xs : List ℤ)
    (hseq : st.batch_seq_abs0 = some a) (hdata : st.batch_data = some d)
    (hper : st.period = some p) (ht0 : st.alignment_t0 = some t0)
    (hfile : st.file = Buffer.fileFor t0 p a d) :
    Buffer.bufferSamples st xs =
      { st with
          file := some (headerBytes (t0 + p * a) p ++ encSamples (d ++ xs))
          tl := st.tl.forward xs.length
          batch_data := some (d ++ xs) } := by
  have hmk : Buffer.makeHeader st = headerBytes (t0 + p * a) p := by
    simp [Buffer.makeHeader, Buffer.getBatchT0, hseq, hper, ht0]
  unfold Buffer.bufferSamples
  rw [hfile]
  unfold Buffer.fileFor
  cases d with
  | nil => simp [hmk, hdata]
  | cons x xs' =>
    simp only [List.isEmpty_cons, if_false, Bool.false_eq_true]
    rw [hmk, hdata]
    have hdrop : (headerBytes (t0 + p * a) p ++ encSamples (x :: xs')).drop 22 =
        encSamples (x :: xs') := by
      rw [List.drop_append_of_le_length (by rw [headerBytes_length])]
      simp [headerBytes_length]
    rw [hdrop, encSamples_append]
    simp

/-- `Buffer._emit` on a nonempty pending batch: one emission at the
batch's timestamp, the base sequence advanced, batch and file cleared. -/
theorem emit_full (st : BufState) (a t0 p : ℤ) (d : List ℤ) (hd : d ≠ [])
    (hseq : st.batch_seq_abs0 = some a) (hdata : st.batch_data = some d)
    (hper : st.period = some p) (ht0 : st.alignment_t0 = some t0) :
    Buffer.emit st =
      ({ st with
          batch_seq_abs0 := some (a + d.length)
          batch_data := some []
          file := none },
       [⟨t0 + p * a, p, d⟩]) := by
  unfold Buffer.emit
  rw [hdata]
  cases d with
  | nil => exact absurd rfl hd
  | cons x xs' =>
    simp [Buffer.getBatchT0, hseq, hper, ht0]

/-- The emission produced for chunk `i` of a run whose open batch
started at absolute sequence `a` with total sample stream `T`. -/
def chunkEmission (B : ℕ) (t0 p a : ℤ) (T : List ℤ) (i : ℕ) : Emission :=
  ⟨t0 + p * (a + (B * i : ℕ)), p, (T.drop (B * i)).take B⟩

/-- The `submit` while-loop on an invariant state emits exactly the
`⌊(d ++ xs).length / B⌋` full chunks of the combined stream, stamps
chunk `i` at `t0 + p·(a + B·i)`, and leaves the remainder pending with
the invariant re-established. -/
theorem submitLoop_spec (B : ℕ) (t0 p : ℤ) (hB : 0 < B) :
    ∀ (n : ℕ) (xs : List ℤ), xs.length = n → ∀ (st : BufState) (a : ℤ) (d : List ℤ),
      OpenInv B t0 p st a d →
      (Buffer.submitLoop st xs).2 =
        (List.range ((d ++ xs).length / B)).map
          (chunkEmission B t0 p a (d ++ xs)) ∧
      OpenInv B t0 p (Buffer.submitLoop st xs).1
        (a + ((B * ((d ++ xs).length / B) : ℕ) : ℤ))
        ((d ++ xs).drop (B * ((d ++ xs).length / B))) ∧
      (Buffer.submitLoop st xs).1.tl.remote_tip =
        (st.tl.remote_tip + xs.length) % 2 ^ 16 := by
  intro n
  induction n using Nat.strong_induction_on with
  | _ n ih =>
    intro xs hlen st a d hinv
    obtain ⟨hBsz, hper, ht0, hseq, hdata, hW, hS, hr0, hr1, hloc, hfile, hdB⟩ := hinv
    rw [Buffer.submitLoop.eq_def]
    by_cases hg : B ≤ xs.length + d.length
    · rw [dif_pos (by simp only [hdata, hBsz, Option.getD_some]; exact ⟨by omega, hdB⟩)]
      simp only [hdata, hBsz, Option.getD_some]
      set t := B - d.length with ht
      have htle : t ≤ xs.length := by omega
      have htpos : 0 < t := by omega
      have htake : (xs.take t).length = t := by
        rw [List.length_take]
        omega
      rw [bufferSamples_spec st a t0 p d (xs.take t) hseq hdata hper ht0 hfile]
      have hlenB : (d ++ xs.take t).length = B := by
        simp [htake]
        omega
      have hne : d ++ xs.take t ≠ [] := by
        intro hcon
        have := congrArg List.length hcon
        simp [hlenB] at this
        omega
      set st1 : BufState :=
        { st with
            file := some (headerBytes (t0 + p * a) p ++ encSamples (d ++ xs.take t))
            tl := st.tl.forward (xs.take t).length
            batch_data := some (d ++ xs.take t) } with hst1
      rw [emit_full st1 a t0 p (d ++ xs.take t) hne (by exact hseq) rfl
        (by exact hper) (by exact ht0)]
      simp only []
      set st2 : BufState :=
        { st1 with
            batch_seq_abs0 := some (a + ((d ++ xs.take t).length : ℤ))
            batch_data := some []
            file := none } with hst2
      have hst2tl : st2.tl = st.tl.forward (xs.take t).length := by
        rw [hst2, hst1]
      have hinv2 : OpenInv B t0 p st2 (a + B) [] := by
        refine ⟨hBsz, hper, ht0, ?_, rfl, ?_, ?_, ?_, ?_, ?_, ?_, hB⟩
        · rw [hst2]
          simp only [hlenB]
        · rw [hst2tl]
          simp [Timeline.forward, hW]
        · rw [hst2tl]
          simp [Timeline.forward, hS]
        · rw [hst2tl]
          simp only [Timeline.forward, hW]
          omega
        · rw [hst2tl]
          simp only [Timeline.forward, hW]
          omega
        · rw [hst2tl]
          simp only [Timeline.forward, htake, List.length_nil]
          rw [hloc]
          push_cast
          omega
        · rw [hst2]
          simp [Buffer.fileFor]
      obtain ⟨hem2, hinv3, hrem3⟩ := ih (xs.drop t).length
        (by rw [List.length_drop]; omega) (xs.drop t) rfl st2 (a + B) [] hinv2
      simp only [List.nil_append] at hem2 hinv3
      have hk : (d ++ xs).length / B = (xs.drop t).length / B + 1 := by
        rw [show (d ++ xs).length = (xs.drop t).length + B by
          simp only [List.length_append, List.length_drop]; omega]
        exact Nat.add_div_right _ hB
      set k2 := (xs.drop t).length / B with hk2
      have hdropB : (d ++ xs).drop B = xs.drop t := by
        rw [List.drop_append_eq_append_drop]
        rw [List.drop_of_length_le (show d.length ≤ B by omega)]
        simp only [List.nil_append]
      have hhead : chunkEmission B t0 p a (d ++ xs) 0 =
          ⟨t0 + p * a, p, d ++ xs.take t⟩ := by
        have h1 : t0 + p * (a + ((B * 0 : ℕ) : ℤ)) = t0 + p * a := by norm_num
        have h2 : ((d ++ xs).drop (B * 0)).take B = d ++ xs.take t := by
          rw [Nat.mul_zero, List.drop_zero, List.take_append_eq_append_take,
              List.take_of_length_le (show d.length ≤ B by omega), ← ht]
        unfold chunkEmission
        rw [h1, h2]
      have hshift : ∀ i : ℕ, chunkEmission B t0 p a (d ++ xs) (i + 1) =
          chunkEmission B t0 p (a + B) (xs.drop t) i := by
        intro i
        have h1 : t0 + p * (a + ((B * (i + 1) : ℕ) : ℤ)) =
            t0 + p * ((a + B) + ((B * i : ℕ) : ℤ)) := by
          push_cast
          ring
        have h2 : ((d ++ xs).drop (B * (i + 1))).take B =
            ((xs.drop t).drop (B * i)).take B := by
          rw [show B * (i + 1) = B + B * i from by ring, ← List.drop_drop, hdropB]
        unfold chunkEmission
        rw [h1, h2]
      refine ⟨?_, ?_, ?_⟩
      · rw [hem2, hk, List.range_succ_eq_map, List.map_cons, List.map_map]
        rw [hhead]
        simp only [List.singleton_append]
        congr 1
        apply List.map_congr_left
        intro i _
        exact (hshift i).symm
      · rw [hk]
        have harg1 : a + ((B * (k2 + 1) : ℕ) : ℤ) = (a + B) + ((B * k2 : ℕ) : ℤ) := by
          push_cast
          ring
        have harg2 : (d ++ xs).drop (B * (k2 + 1)) =
            (xs.drop t).drop (B * k2) := by
          rw [show B * (k2 + 1) = B + B * k2 from by ring, ← List.drop_drop, hdropB]
        rw [harg1, harg2]
        exact hinv3
      · rw [hrem3]
        have hr2 : st2.tl.remote_tip =
            (st.tl.remote_tip + ((xs.take t).length : ℤ)) % 2 ^ 16 := by
          rw [hst2tl]
          simp [Timeline.forward, hW]
        rw [hr2]
        simp only [htake, List.length_drop]
        have hcast : ((xs.length - t : ℕ) : ℤ) = (xs.length : ℤ) - t := by
          omega
        rw [hcast]
        omega
    · rw [dif_neg (by
        simp only [hdata, hBsz, Option.getD_some]
        intro hcon
        exact hg (by omega))]
      have hk0 : (d ++ xs).length / B = 0 := by
        apply Nat.div_eq_of_lt
        simp only [List.length_append]
        omega
      by_cases hxs : xs.isEmpty
      · rw [if_pos hxs]
        have hxs2 : xs = [] := by
          cases xs
          · rfl
          · simp at hxs
        subst hxs2
        refine ⟨?_, ?_, ?_⟩
        · rw [hk0]
          rfl
        · rw [hk0]
          simp only [Nat.mul_zero, Nat.cast_zero, add_zero, List.drop_zero,
            List.append_nil]
          exact ⟨hBsz, hper, ht0, hseq, hdata, hW, hS, hr0, hr1, hloc, hfile, hdB⟩
        · simp only [List.length_nil, Nat.cast_zero, add_zero]
          omega
      · rw [if_neg hxs, bufferSamples_spec st a t0 p d xs hseq hdata hper ht0 hfile]
        have hne2 : (d ++ xs).isEmpty = false := by
          cases xs
          · simp at hxs
          · simp
        refine ⟨?_, ?_, ?_⟩
        · rw [hk0]
          rfl
        · rw [hk0]
          simp only [Nat.mul_zero, Nat.cast_zero, add_zero, List.drop_zero]
          refine ⟨hBsz, hper, ht0, hseq, rfl, ?_, ?_, ?_, ?_, ?_, ?_, ?_⟩
          · simp [Timeline.forward, hW]
          · simp [Timeline.forward, hS]
          · simp only [Timeline.forward, hW]
            omega
          · simp only [Timeline.forward, hW]
            omega
          · simp only [Timeline.forward]
            rw [hloc]
            simp only [List.length_append]
            push_cast
            ring
          · simp only [Buffer.fileFor, hne2, if_false, Bool.false_eq_true]
          · simp only [List.length_append]
            omega
        · simp [Timeline.forward, hW]

/-- `Buffer.submit` on an open invariant state fed the expected next
relative sequence number reduces to the while-loop: the timeline is
untouched and no discontinuity emission happens. -/
theorem submit_contiguous (B : ℕ) (t0 p : ℤ) (st : BufState) (a : ℤ)
    (d : List ℤ) (hinv : OpenInv B t0 p st a d) (xs : List ℤ) :
    Buffer.submit st st.tl.remote_tip xs = Buffer.submitLoop st xs := by
  obtain ⟨hBsz, hper, ht0, hseq, hdata, hW, hS, hr0, hr1, hloc, hfile, hdB⟩ := hinv
  unfold Buffer.submit
  rw [feed_contiguous st.tl (by rw [hS]; norm_num)]
  simp only [hseq, Option.isNone_some, Bool.false_eq_true, if_false,
    Option.getD_some, hdata, hloc, ne_eq, not_true_eq_false, add_right_cancel_iff,
    Nat.cast_inj]
  rw [← hseq, ← hdata]
  simp [Prod.mk.eta]

/-- `Buffer.submit` on a state with no open batch: the batch opens at
the current local tip and the call proceeds as the while-loop on the
opened state. -/
theorem submit_fresh (st : BufState) (hseqN : st.batch_seq_abs0 = none)
    (hS : 0 < st.tl.slack) (xs : List ℤ) :
    Buffer.submit st st.tl.remote_tip xs =
      Buffer.submitLoop
        { st with batch_seq_abs0 := some st.tl.local_tip,
                  batch_data := some [] } xs := by
  unfold Buffer.submit
  rw [feed_contiguous st.tl hS]
  simp only [hseqN, Option.isNone_none, if_true, Option.getD_some,
    List.length_nil, Nat.cast_zero, add_zero, ne_eq, not_true_eq_false, if_false]
  simp [Prod.mk.eta]

/-- A sequence of `submit` calls, collecting all emissions. -/
def submitRun (st : BufState) : List (ℤ × List ℤ) → BufState × List Emission
  | [] => (st, [])
  | (rel, xs) :: rest =>
    let p1 := Buffer.submit st rel xs
    let p2 := submitRun p1.1 rest
    (p2.1, p1.2 ++ p2.2)

/-- The submit calls carry no discontinuity: each call's first relative
sequence number is exactly the next one the buffer expects (the
timeline's remote tip, i.e. the device's wrapping `u16` counter). -/
def contiguousRun (st : BufState) : List (ℤ × List ℤ) → Bool
  | [] => true
  | (rel, xs) :: rest =>
    rel == st.tl.remote_tip && contiguousRun (Buffer.submit st rel xs).1 rest

/-- A contiguous run of submits over an open invariant buffer: all
emissions are the chunks of the combined sample stream at `B`
boundaries, chunk `i` stamped `t0 + p·(a + B·i)`, and the remainder is
left pending. -/
theorem submitRun_spec (B : ℕ) (t0 p : ℤ) (hB : 0 < B) :
    ∀ (pairs : List (ℤ × List ℤ)) (st : BufState) (a : ℤ) (d : List ℤ),
      OpenInv B t0 p st a d → contiguousRun st pairs = true →
      (submitRun st pairs).2 =
        (List.range ((d ++ (pairs.map Prod.snd).flatten).length / B)).map
          (chunkEmission B t0 p a (d ++ (pairs.map Prod.snd).flatten)) ∧
      OpenInv B t0 p (submitRun st pairs).1
        (a + ((B * ((d ++ (pairs.map Prod.snd).flatten).length / B) : ℕ) : ℤ))
        ((d ++ (pairs.map Prod.snd).flatten).drop
          (B * ((d ++ (pairs.map Prod.snd).flatten).length / B))) := by
  intro pairs
  induction pairs with
  | nil =>
    intro st a d hinv _
    have hk0 : (d ++ ([] : List (List ℤ)).flatten).length / B = 0 := by
      apply Nat.div_eq_of_lt
      simpa using hinv.2.2.2.2.2.2.2.2.2.2.2
    simp only [List.map_nil] at hk0 ⊢
    rw [hk0]
    simp only [List.range_zero, List.map_nil, Nat.mul_zero, List.drop_zero,
      Nat.cast_zero, add_zero, List.flatten_nil, List.append_nil]
    exact ⟨rfl, hinv⟩
  | cons pr rest ih =>
    intro st a d hinv hcont
    obtain ⟨rel, xs⟩ := pr
    simp only [contiguousRun, Bool.and_eq_true, beq_iff_eq] at hcont
    obtain ⟨hrel, hcont'⟩ := hcont
    subst hrel
    have hfst : (submitRun st ((st.tl.remote_tip, xs) :: rest)).1 =
        (submitRun (Buffer.submit st st.tl.remote_tip xs).1 rest).1 := rfl
    have hsnd : (submitRun st ((st.tl.remote_tip, xs) :: rest)).2 =
        (Buffer.submit st st.tl.remote_tip xs).2 ++
        (submitRun (Buffer.submit st st.tl.remote_tip xs).1 rest).2 := rfl
    rw [submit_contiguous B t0 p st a d hinv xs] at hcont' hfst hsnd
    rw [hfst, hsnd]
    obtain ⟨hem1, hinv1, _⟩ := submitLoop_spec B t0 p hB xs.length xs rfl st a d hinv
    set T1 : List ℤ := d ++ xs with hT1
    set k1 := T1.length / B with hk1
    set J : List ℤ := (rest.map Prod.snd).flatten with hJ
    have hT : d ++ (((st.tl.remote_tip, xs) :: rest).map Prod.snd).flatten =
        T1 ++ J := by
      simp [hT1, hJ, List.append_assoc]
    rw [hT]
    have hk1le : B * k1 ≤ T1.length := by
      rw [hk1, Nat.mul_comm]
      exact Nat.div_mul_le_self _ _
    have hdropT1 : (T1 ++ J).drop (B * k1) = T1.drop (B * k1) ++ J := by
      rw [List.drop_append_eq_append_drop, Nat.sub_eq_zero_of_le hk1le,
        List.drop_zero]
    obtain ⟨hem2, hinv2⟩ := ih (Buffer.submitLoop st xs).1 (a + ((B * k1 : ℕ) : ℤ))
      (T1.drop (B * k1)) hinv1 hcont'
    have hlen2 : (T1.drop (B * k1) ++ J).length = (T1.length - B * k1) + J.length := by
      simp [List.length_drop]
    have hktot : (T1 ++ J).length / B = k1 + (T1.drop (B * k1) ++ J).length / B := by
      have h1 : (T1 ++ J).length = B * k1 + ((T1.length - B * k1) + J.length) := by
        simp only [List.length_append]
        omega
      rw [h1, Nat.mul_add_div hB, hlen2]
    set k2 := (T1.drop (B * k1) ++ J).length / B with hk2
    have hdropT2 : (T1.drop (B * k1) ++ J) = (T1 ++ J).drop (B * k1) := hdropT1.symm
    constructor
    · rw [hem1, hem2, hktot, List.range_add, List.map_append, List.map_map]
      congr 1
      · apply List.map_congr_left
        intro i hi
        rw [List.mem_range] at hi
        have hBle : B * (i + 1) ≤ T1.length := by
          calc B * (i + 1) ≤ B * k1 := by
                apply Nat.mul_le_mul_left
                omega
            _ ≤ T1.length := hk1le
        have hBi : B * (i + 1) = B * i + B := by ring
        have hdropi : (T1 ++ J).drop (B * i) = T1.drop (B * i) ++ J := by
          rw [List.drop_append_eq_append_drop,
            Nat.sub_eq_zero_of_le (by omega), List.drop_zero]
        unfold chunkEmission
        congr 1
        rw [hdropi, List.take_append_eq_append_take,
          show B - (T1.drop (B * i)).length = 0 from by
            simp only [List.length_drop]; omega,
          List.take_zero, List.append_nil]
      · apply List.map_congr_left
        intro i _
        have h1 : t0 + p * ((a + ((B * k1 : ℕ) : ℤ)) + ((B * i : ℕ) : ℤ)) =
            t0 + p * (a + ((B * (k1 + i) : ℕ) : ℤ)) := by
          push_cast
          ring
        have h2 : ((T1.drop (B * k1) ++ J).drop (B * i)).take B =
            ((T1 ++ J).drop (B * (k1 + i))).take B := by
          rw [hdropT2, List.drop_drop]
          congr 2
          ring
        unfold chunkEmission
        rw [h1, h2]
        rfl
    · rw [hktot]
      have harg1 : a + ((B * (k1 + k2) : ℕ) : ℤ) =
          (a + ((B * k1 : ℕ) : ℤ)) + ((B * k2 : ℕ) : ℤ) := by
        push_cast
        ring
      have harg2 : (T1 ++ J).drop (B * (k1 + k2)) =
          (T1.drop (B * k1) ++ J).drop (B * k2) := by
        rw [hdropT2, List.drop_drop]
        congr 1
        ring
      rw [harg1, harg2]
      exact hinv2

/-- Resetting right after a feed forgets whatever the feed did: only
the wraparound constants survive. -/
theorem reset_after_feed (tl : Timeline) (x y : ℤ) :
    ((tl.feed_and_transform x).1).reset y = tl.reset y := by
  unfold Timeline.feed_and_transform
  dsimp only
  split <;> rfl

theorem feed_wraparound (tl : Timeline) (x : ℤ) :
    (tl.feed_and_transform x).1.wraparound_at = tl.wraparound_at := by
  unfold Timeline.feed_and_transform
  dsimp only
  split <;> rfl

theorem feed_slack (tl : Timeline) (x : ℤ) :
    (tl.feed_and_transform x).1.slack = tl.slack := by
  unfold Timeline.feed_and_transform
  dsimp only
  split <;> rfl

/-- A freshly constructed buffer (empty directory) after its first
`align(s0, t0, p)`. -/
def freshAligned (B : ℕ) (s0 t0 p : ℤ) : BufState :=
  (Buffer.align (mkBuffer B) s0 t0 p).1

/-- The first `align` on a fresh buffer leaves: timeline reset at `s0`,
period `p`, `alignment_t0 = t0` (single anchor, so the smoothing mean
is zero), one alignment anchor and no batch. -/
theorem freshAligned_eq (B : ℕ) (s0 t0 p : ℤ) :
    freshAligned B s0 t0 p =
      ⟨⟨s0, 0, 2 ^ 16, 2 ^ 15⟩, B, none, none, some p, some t0, [(0, t0)], none⟩ := by
  unfold freshAligned Buffer.align mkBuffer
  simp [Buffer.emit, reset_after_feed, Timeline.reset, feed_wraparound, feed_slack]
  decide

/-- The first `align` on a fresh buffer emits nothing. -/
theorem freshAligned_no_emission (B : ℕ) (s0 t0 p : ℤ) :
    (Buffer.align (mkBuffer B) s0 t0 p).2 = [] := by
  unfold Buffer.align mkBuffer
  simp [Buffer.emit]

/-- Claim C2: an aligned stream buffer with batch size `B` receiving
`kB + r` contiguous samples over any sequence of submits emits exactly
`k` blocks: block `i` carries exactly the `i`-th `B`-sample chunk of
the stream and is stamped `t0 + i·B·period`; afterwards the in-memory
batch holds exactly the remaining `r` samples. -/
theorem c2_exact_batching (B : ℕ) (s0 t0 p : ℤ) (pairs : List (ℤ × List ℤ))
    (hB : 0 < B) (hs0 : 0 ≤ s0) (hs1 : s0 < 2 ^ 16)
    (hcont : contiguousRun (freshAligned B s0 t0 p) pairs = true) :
    (submitRun (freshAligned B s0 t0 p) pairs).2 =
      (List.range (((pairs.map Prod.snd).flatten).length / B)).map
        (fun i => ⟨t0 + p * ((B * i : ℕ) : ℤ), p,
          (((pairs.map Prod.snd).flatten).drop (B * i)).take B⟩) ∧
    (submitRun (freshAligned B s0 t0 p) pairs).2.length =
      ((pairs.map Prod.snd).flatten).length / B ∧
    (∀ e ∈ (submitRun (freshAligned B s0 t0 p) pairs).2,
      e.samples.length = B ∧ e.period = p) ∧
    ((submitRun (freshAligned B s0 t0 p) pairs).1.batch_data.getD []) =
      ((pairs.map Prod.snd).flatten).drop
        (B * (((pairs.map Prod.snd).flatten).length / B)) := by
  have hsampleslen : ∀ (S : List ℤ) (i : ℕ), i < S.length / B →
      ((S.drop (B * i)).take B).length = B := by
    intro S i hi
    have h1 : B * (i + 1) ≤ B * (S.length / B) := Nat.mul_le_mul_left _ (by omega)
    have h2 : B * (S.length / B) ≤ S.length := by
      rw [Nat.mul_comm]
      exact Nat.div_mul_le_self _ _
    have h3 : B * (i + 1) = B * i + B := by ring
    simp only [List.length_take, List.length_drop]
    omega
  cases pairs with
  | nil =>
    refine ⟨?_, ?_, ?_, ?_⟩ <;>
      simp [submitRun, freshAligned_eq]
  | cons pr rest =>
    obtain ⟨rel, xs⟩ := pr
    rw [freshAligned_eq] at hcont ⊢
    simp only [contiguousRun, Bool.and_eq_true, beq_iff_eq] at hcont
    obtain ⟨hrel, hrest⟩ := hcont
    subst hrel
    set L : BufState :=
      ⟨⟨rel, 0, 2 ^ 16, 2 ^ 15⟩, B, none, none, some p, some t0, [(0, t0)], none⟩
      with hL
    set openL : BufState :=
      ⟨⟨rel, 0, 2 ^ 16, 2 ^ 15⟩, B, some 0, some [], some p, some t0, [(0, t0)], none⟩
      with hopenL
    have hopen : OpenInv B t0 p openL 0 [] := by
      refine ⟨rfl, rfl, rfl, rfl, rfl, rfl, rfl, hs0, hs1, by simp, ?_, hB⟩
      simp [hopenL, Buffer.fileFor]
    have hstep : Buffer.submit L L.tl.remote_tip xs = Buffer.submitLoop openL xs :=
      submit_fresh L rfl (by norm_num) xs
    have hstep2 : Buffer.submit openL openL.tl.remote_tip xs =
        Buffer.submitLoop openL xs :=
      submit_contiguous B t0 p openL 0 [] hopen xs
    have hremL : L.tl.remote_tip = rel := rfl
    have hremO : openL.tl.remote_tip = rel := rfl
    rw [hremL] at hstep
    rw [hremO] at hstep2
    have hcont2 : contiguousRun openL ((rel, xs) :: rest) = true := by
      simp only [contiguousRun, Bool.and_eq_true, beq_iff_eq]
      refine ⟨by trivial, ?_⟩
      rw [hstep2, ← hstep]
      exact hrest
    obtain ⟨hem, hinv⟩ :=
      submitRun_spec B t0 p hB ((rel, xs) :: rest) openL 0 [] hopen hcont2
    simp only [List.nil_append] at hem hinv
    have hrun : submitRun L ((rel, xs) :: rest) =
        submitRun openL ((rel, xs) :: rest) := by
      simp only [submitRun]
      rw [hstep, hstep2]
    rw [hrun]
    set S : List ℤ := ((((rel, xs) :: rest).map Prod.snd).flatten)
      with hSdef
    set k := S.length / B with hkdef
    have hem' : (submitRun openL ((L.tl.remote_tip, xs) :: rest)).2 =
        (List.range k).map (fun i => ⟨t0 + p * ((B * i : ℕ) : ℤ), p,
          (S.drop (B * i)).take B⟩) := by
      rw [hem]
      apply List.map_congr_left
      intro i _
      unfold chunkEmission
      rw [zero_add]
    refine ⟨hem', ?_, ?_, ?_⟩
    · rw [hem']
      simp
    · intro e he
      rw [hem'] at he
      simp only [List.mem_map, List.mem_range] at he
      obtain ⟨i, hi, rfl⟩ := he
      exact ⟨hsampleslen S i hi, rfl⟩
    · rw [hinv.2.2.2.2.1]
      rfl

/-- Witness for C2: batch size 2, one contiguous submit of [1, 2, 3] to a
freshly aligned buffer emits exactly one block ⟨t0, period, [1, 2]⟩ and
keeps [3] pending. -/
theorem c2_exact_batching_witness :
    contiguousRun (freshAligned 2 0 0 5000) [(0, [1, 2, 3])] = true ∧
    (submitRun (freshAligned 2 0 0 5000) [(0, [1, 2, 3])]).2 =
      [⟨0, 5000, [1, 2]⟩] ∧
    ((submitRun (freshAligned 2 0 0 5000) [(0, [1, 2, 3])]).1.batch_data.getD [])
      = [3] := by
  have h := c2_exact_batching 2 0 0 5000 [(0, [1, 2, 3])]
    (by decide) (by decide) (by decide) (by rfl)
  refine ⟨by rfl, ?_, ?_⟩
  · rw [h.1]
    rfl
  · rw [h.2.2.2]
    rfl

/-! ## Restart persistence (claim C8): file round-trips and failure modes -/

theorem readHeader_headerBytes (t0 p : ℤ) (rest : List ℕ)
    (h1 : (dt_to_ts t0).toNat < 2 ^ 64) (h2 : p.toNat < 2 ^ 64) :
    readHeader (headerBytes t0 p ++ rest) =
      some (0, (dt_to_ts t0).toNat, (t0 % 1000000).toNat, p.toNat, 104, rest) := by
  set a := (dt_to_ts t0).toNat with ha
  set b := (t0 % 1000000).toNat with hb
  set c := p.toNat with hc
  have hb32 : b < 2 ^ 32 := by omega
  have key : readHeader (headerBytes t0 p ++ rest) =
      some (0 % 256,
        a % 256 + 256 * (a / 256 % 256) + 256 ^ 2 * (a / 256 / 256 % 256) +
          256 ^ 3 * (a / 256 / 256 / 256 % 256) +
          256 ^ 4 * (a / 256 / 256 / 256 / 256 % 256) +
          256 ^ 5 * (a / 256 / 256 / 256 / 256 / 256 % 256) +
          256 ^ 6 * (a / 256 / 256 / 256 / 256 / 256 / 256 % 256) +
          256 ^ 7 * (a / 256 / 256 / 256 / 256 / 256 / 256 / 256 % 256),
        b % 256 + 256 * (b / 256 % 256) + 256 ^ 2 * (b / 256 / 256 % 256) +
          256 ^ 3 * (b / 256 / 256 / 256 % 256),
        c % 256 + 256 * (c / 256 % 256) + 256 ^ 2 * (c / 256 / 256 % 256) +
          256 ^ 3 * (c / 256 / 256 / 256 % 256) +
          256 ^ 4 * (c / 256 / 256 / 256 / 256 % 256) +
          256 ^ 5 * (c / 256 / 256 / 256 / 256 / 256 % 256) +
          256 ^ 6 * (c / 256 / 256 / 256 / 256 / 256 / 256 % 256) +
          256 ^ 7 * (c / 256 / 256 / 256 / 256 / 256 / 256 / 256 % 256),
        104 % 256, rest) := rfl
  have e2 : a % 256 + 256 * (a / 256 % 256) + 256 ^ 2 * (a / 256 / 256 % 256) +
      256 ^ 3 * (a / 256 / 256 / 256 % 256) +
      256 ^ 4 * (a / 256 / 256 / 256 / 256 % 256) +
      256 ^ 5 * (a / 256 / 256 / 256 / 256 / 256 % 256) +
      256 ^ 6 * (a / 256 / 256 / 256 / 256 / 256 / 256 % 256) +
      256 ^ 7 * (a / 256 / 256 / 256 / 256 / 256 / 256 / 256 % 256) = a := by omega
  have e3 : b % 256 + 256 * (b / 256 % 256) + 256 ^ 2 * (b / 256 / 256 % 256) +
      256 ^ 3 * (b / 256 / 256 / 256 % 256) = b := by omega
  have e4 : c % 256 + 256 * (c / 256 % 256) + 256 ^ 2 * (c / 256 / 256 % 256) +
      256 ^ 3 * (c / 256 / 256 / 256 % 256) +
      256 ^ 4 * (c / 256 / 256 / 256 / 256 % 256) +
      256 ^ 5 * (c / 256 / 256 / 256 / 256 / 256 % 256) +
      256 ^ 6 * (c / 256 / 256 / 256 / 256 / 256 / 256 % 256) +
      256 ^ 7 * (c / 256 / 256 / 256 / 256 / 256 / 256 / 256 % 256) = c := by omega
  rw [key, e2, e3, e4]

theorem decodeSamplesLE_encSamples (d : List ℤ)
    (hd : ∀ x ∈ d, -(2 ^ 15) ≤ x ∧ x < 2 ^ 15) :
    decodeSamplesLE (encSamples d) = d := by
  induction d with
  | nil => rfl
  | cons x xs ih =>
    obtain ⟨hx1, hx2⟩ := hd x (List.mem_cons_self _ _)
    have hrest : ∀ y ∈ xs, -(2 ^ 15) ≤ y ∧ y < 2 ^ 15 :=
      fun y hy => hd y (List.mem_cons_of_mem _ hy)
    have key : decodeSamplesLE (encSamples (x :: xs)) =
        toSigned16 ((x % 2 ^ 16).toNat % 256 +
          256 * ((x % 2 ^ 16).toNat / 256 % 256)) ::
        decodeSamplesLE (encSamples xs) := rfl
    have harg : (x % 2 ^ 16).toNat % 256 + 256 * ((x % 2 ^ 16).toNat / 256 % 256)
        = (x % 2 ^ 16).toNat := by omega
    rw [key, ih hrest, harg]
    have hhead : toSigned16 (x % 2 ^ 16).toNat = x := by
      unfold toSigned16
      split <;> omega
    rw [hhead]

/-- A file written as a version-0 header plus packed int16 samples parses
back to exactly the written timestamp, period and samples, for in-range
header fields. -/
theorem parseSampleData_roundtrip (T p : ℤ) (d : List ℤ)
    (hT0 : 0 ≤ T) (hT1 : T ≤ maxDatetimeS * 1000000 + 999999)
    (hp0 : 0 ≤ p) (hp1 : p < 2 ^ 64)
    (hd : ∀ x ∈ d, -(2 ^ 15) ≤ x ∧ x < 2 ^ 15) :
    Buffer.parseSampleData (headerBytes T p ++ encSamples d) =
      .ok (some (T, p, d)) := by
  have hmax : maxDatetimeS = 253402300799 := rfl
  have h1 : (dt_to_ts T).toNat < 2 ^ 64 := by
    unfold dt_to_ts
    rw [hmax] at hT1
    omega
  have h2 : p.toNat < 2 ^ 64 := by omega
  have step : Buffer.parseSampleData (headerBytes T p ++ encSamples d) =
      if (0 : ℕ) ≠ 0 then .ok none
      else if maxDatetimeS < (((dt_to_ts T).toNat : ℕ) : ℤ) then .error .overflowError
      else if 1000000 ≤ (T % 1000000).toNat then .error .valueError
      else .ok (some ((((dt_to_ts T).toNat : ℕ) : ℤ) * 1000000 +
        (((T % 1000000).toNat : ℕ) : ℤ), ((p.toNat : ℕ) : ℤ),
        decodeSamplesLE (encSamples d))) := by
    unfold Buffer.parseSampleData
    rw [readHeader_headerBytes T p (encSamples d) h1 h2]
  rw [step]
  have g1 : ¬ ((0 : ℕ) ≠ 0) := by omega
  have g2 : ¬ (maxDatetimeS < (((dt_to_ts T).toNat : ℕ) : ℤ)) := by
    unfold dt_to_ts
    rw [hmax] at hT1 ⊢
    omega
  have g3 : ¬ ((1000000 : ℕ) ≤ (T % 1000000).toNat) := by omega
  rw [if_neg g1, if_neg g2, if_neg g3]
  have e1 : (((dt_to_ts T).toNat : ℕ) : ℤ) * 1000000 +
      (((T % 1000000).toNat : ℕ) : ℤ) = T := by
    unfold dt_to_ts
    omega
  have e2 : ((p.toNat : ℕ) : ℤ) = p := by omega
  rw [e1, e2, decodeSamplesLE_encSamples d hd]

/-- The `current` file of a freshly aligned buffer after any contiguous
run of submits holds exactly the pending (never yet emitted) samples:
`Buffer._emit` unlinks the file whenever a batch is flushed. -/
theorem freshRun_final (B : ℕ) (s0 t0 p : ℤ) (pairs : List (ℤ × List ℤ))
    (hB : 0 < B) (hs0 : 0 ≤ s0) (hs1 : s0 < 2 ^ 16)
    (hcont : contiguousRun (freshAligned B s0 t0 p) pairs = true) :
    (submitRun (freshAligned B s0 t0 p) pairs).1.file =
      Buffer.fileFor t0 p
        ((B * (((pairs.map Prod.snd).flatten).length / B) : ℕ) : ℤ)
        (((pairs.map Prod.snd).flatten).drop
          (B * (((pairs.map Prod.snd).flatten).length / B))) := by
  cases pairs with
  | nil =>
    simp [submitRun, freshAligned_eq, Buffer.fileFor]
  | cons pr rest =>
    obtain ⟨rel, xs⟩ := pr
    rw [freshAligned_eq] at hcont ⊢
    simp only [contiguousRun, Bool.and_eq_true, beq_iff_eq] at hcont
    obtain ⟨hrel, hrest⟩ := hcont
    subst hrel
    set L : BufState :=
      ⟨⟨rel, 0, 2 ^ 16, 2 ^ 15⟩, B, none, none, some p, some t0, [(0, t0)], none⟩
      with hL
    set openL : BufState :=
      ⟨⟨rel, 0, 2 ^ 16, 2 ^ 15⟩, B, some 0, some [], some p, some t0, [(0, t0)], none⟩
      with hopenL
    have hopen : OpenInv B t0 p openL 0 [] := by
      refine ⟨rfl, rfl, rfl, rfl, rfl, rfl, rfl, hs0, hs1, by simp, ?_, hB⟩
      simp [hopenL, Buffer.fileFor]
    have hstep : Buffer.submit L L.tl.remote_tip xs = Buffer.submitLoop openL xs :=
      submit_fresh L rfl (by norm_num) xs
    have hstep2 : Buffer.submit openL openL.tl.remote_tip xs =
        Buffer.submitLoop openL xs :=
      submit_contiguous B t0 p openL 0 [] hopen xs
    have hremL : L.tl.remote_tip = rel := rfl
    have hremO : openL.tl.remote_tip = rel := rfl
    rw [hremL] at hstep
    rw [hremO] at hstep2
    have hcont2 : contiguousRun openL ((rel, xs) :: rest) = true := by
      simp only [contiguousRun, Bool.and_eq_true, beq_iff_eq]
      refine ⟨by trivial, ?_⟩
      rw [hstep2, ← hstep]
      exact hrest
    obtain ⟨hem, hinv⟩ :=
      submitRun_spec B t0 p hB ((rel, xs) :: rest) openL 0 [] hopen hcont2
    simp only [List.nil_append] at hem hinv
    have hrun : submitRun L ((rel, xs) :: rest) =
        submitRun openL ((rel, xs) :: rest) := by
      simp only [submitRun]
      rw [hstep, hstep2]
    rw [hrun]
    have hfile := hinv.2.2.2.2.2.2.2.2.2.2.1
    rw [hfile, zero_add]

/-- A corrupt `current` file: a valid version-0 header whose microsecond
field holds 1000000 (out of range for `datetime.replace`). -/
def c8BadFile : List ℕ :=
  encLE 1 0 ++ encLE 8 0 ++ encLE 4 1000000 ++ encLE 8 5000 ++ encLE 1 104

/-- A well-formed `current` file: version-0 header for t0 = 5 µs after
the epoch, period 7 µs, one sample of value 1. -/
def c8GoodFile : List ℕ := headerBytes 5 7 ++ encSamples [1]

/-- Claim C8 counterexample: for a corrupt `current` file consisting of a
version-0 header whose microsecond field is 1000000, `_parse_sample_data`
raises `ValueError` (from `datetime.replace(microsecond=...)`), the
exception escapes `__init__` — so construction does not complete — and
the file is not unlinked (the unlink in `_emit_existing` is only reached
after a successful parse), contradicting "if the file is corrupt ... it
is discarded without any emission and unlinked; in every case
construction completes". -/
theorem c8_restart_counterexample :
    Buffer.parseSampleData c8BadFile = .error .valueError ∧
    Buffer.construct 1024 (some c8BadFile) = .error .valueError := ⟨rfl, rfl⟩

/-- Claim C8 amended: construction with no `current` file completes with
no emission; a file that parses is emitted exactly once and dropped; a
short or unknown-version file is discarded without emission and dropped;
but a version-0 header with out-of-range timestamp fields raises and the
exception escapes the constructor with the file kept.  No already-flushed
sample is ever re-emitted: after any contiguous run of submits on a
freshly aligned buffer the `current` file replays (at restart) exactly
the still-pending tail of the stream, never samples of an emitted batch. -/
theorem c8_restart_amended (bs : ℕ) (bytes : List ℕ) (T p : ℤ)
    (hT0 : 0 ≤ T) (hp0 : 0 ≤ p) (hp1 : p < 2 ^ 64) :
    Buffer.construct bs none = .ok ({ mkBuffer bs with file := none }, []) ∧
    (∀ t0 per data, Buffer.parseSampleData bytes = .ok (some (t0, per, data)) →
      Buffer.construct bs (some bytes) =
        .ok ({ mkBuffer bs with file := none }, [⟨t0, per, data⟩])) ∧
    (Buffer.parseSampleData bytes = .ok none →
      Buffer.construct bs (some bytes) =
        .ok ({ mkBuffer bs with file := none }, [])) ∧
    (∀ e, Buffer.parseSampleData bytes = .error e →
      Buffer.construct bs (some bytes) = .error e) ∧
    (∀ (B : ℕ) (s0 : ℤ) (pairs : List (ℤ × List ℤ)),
      0 < B → 0 ≤ s0 → s0 < 2 ^ 16 →
      contiguousRun (freshAligned B s0 T p) pairs = true →
      T + p * ((((pairs.map Prod.snd).flatten).length : ℕ) : ℤ) ≤
        maxDatetimeS * 1000000 + 999999 →
      (∀ x ∈ (pairs.map Prod.snd).flatten, -(2 ^ 15) ≤ x ∧ x < 2 ^ 15) →
      Buffer.emitExisting (submitRun (freshAligned B s0 T p) pairs).1.file =
        .ok (none,
          if ((pairs.map Prod.snd).flatten).drop
              (B * (((pairs.map Prod.snd).flatten).length / B)) = [] then []
          else [⟨T + p * ((B * (((pairs.map Prod.snd).flatten).length / B) : ℕ) : ℤ),
                p,
                ((pairs.map Prod.snd).flatten).drop
                  (B * (((pairs.map Prod.snd).flatten).length / B))⟩])) := by
  refine ⟨rfl, ?_, ?_, ?_, ?_⟩
  · intro t0 per data hparse
    have h1 : Buffer.emitExisting (some bytes) = .ok (none, [⟨t0, per, data⟩]) := by
      simp only [Buffer.emitExisting]
      rw [hparse]
    unfold Buffer.construct
    rw [h1]
  · intro hparse
    have h1 : Buffer.emitExisting (some bytes) = .ok (none, []) := by
      simp only [Buffer.emitExisting]
      rw [hparse]
    unfold Buffer.construct
    rw [h1]
  · intro e hparse
    have h1 : Buffer.emitExisting (some bytes) = .error e := by
      simp only [Buffer.emitExisting]
      rw [hparse]
    unfold Buffer.construct
    rw [h1]
  · intro B s0 pairs hB hs0 hs1 hcont hbound hrange
    have hfile := freshRun_final B s0 T p pairs hB hs0 hs1 hcont
    set S := ((pairs.map Prod.snd).flatten) with hS
    set k := S.length / B with hk
    rw [hfile]
    have hBk_le : B * k ≤ S.length := by
      rw [hk, Nat.mul_comm]
      exact Nat.div_mul_le_self _ _
    by_cases hpend : S.drop (B * k) = []
    · have hempty : (S.drop (B * k)).isEmpty = true := by simp [hpend]
      unfold Buffer.fileFor
      rw [if_pos hempty, if_pos hpend]
      rfl
    · have hne : ¬ ((S.drop (B * k)).isEmpty = true) := by simp [hpend]
      unfold Buffer.fileFor
      rw [if_neg hne, if_neg hpend]
      have hT0' : 0 ≤ T + p * ((B * k : ℕ) : ℤ) := by
        have h1 : (0 : ℤ) ≤ p * ((B * k : ℕ) : ℤ) :=
          mul_nonneg hp0 (Int.natCast_nonneg _)
        omega
      have hT1' : T + p * ((B * k : ℕ) : ℤ) ≤ maxDatetimeS * 1000000 + 999999 := by
        have h1 : ((B * k : ℕ) : ℤ) ≤ ((S.length : ℕ) : ℤ) := by
          exact_mod_cast hBk_le
        have h2 : p * ((B * k : ℕ) : ℤ) ≤ p * ((S.length : ℕ) : ℤ) :=
          mul_le_mul_of_nonneg_left h1 hp0
        linarith [hbound]
      have hd' : ∀ x ∈ S.drop (B * k), -(2 ^ 15) ≤ x ∧ x < 2 ^ 15 :=
        fun x hx => hrange x (List.mem_of_mem_drop hx)
      have hstep : Buffer.emitExisting
          (some (headerBytes (T + p * ((B * k : ℕ) : ℤ)) p ++
            encSamples (S.drop (B * k)))) =
          .ok (none, [⟨T + p * ((B * k : ℕ) : ℤ), p, S.drop (B * k)⟩]) := by
        simp only [Buffer.emitExisting]
        rw [parseSampleData_roundtrip _ _ _ hT0' hT1' hp0 hp1 hd']
      exact hstep

/-- Witness for the amended C8: the well-formed file replays its single
sample once and is dropped, and the post-run `current` file of a batch-2
buffer that consumed [1, 2, 3] replays exactly the pending [3] at the
correct timestamp (the flushed [1, 2] is not re-emitted). -/
theorem c8_restart_amended_witness :
    Buffer.parseSampleData c8GoodFile = .ok (some (5, 7, [1])) ∧
    Buffer.construct 2 (some c8GoodFile) =
      .ok ({ mkBuffer 2 with file := none }, [⟨5, 7, [1]⟩]) ∧
    contiguousRun (freshAligned 2 0 0 5000) [(0, [1, 2, 3])] = true ∧
    Buffer.emitExisting (submitRun (freshAligned 2 0 0 5000) [(0, [1, 2, 3])]).1.file =
      .ok (none, [⟨10000, 5000, [3]⟩]) := by
  have h := c8_restart_amended 2 c8GoodFile 0 5000 (by decide) (by decide) (by decide)
  refine ⟨by rfl, h.2.1 5 7 [1] (by rfl), by rfl, ?_⟩
  have h5 := h.2.2.2.2 2 0 [(0, [1, 2, 3])] (by decide) (by decide) (by decide)
    (by rfl) (by decide) (by decide)
  exact h5
